import Mathlib

/-!
Verification of the conciliapp partitioned record store and fair-assignment
engine, as implemented in the Google Apps Script sources (principally the
`CobranzaService`, `assignPendingRecords`, `updateRecordStatus` and
`deleteRecord` functions).

The spreadsheet is modelled shallowly: a sheet is a name together with its
data rows (the frozen header row is kept implicit), a row is a list of cells,
and a cell is a string, a number or a date (epoch milliseconds).  JavaScript
`Map`/`Set` insertion-order semantics, string truthiness, `%` (truncated
remainder) and `Array.prototype` operations are translated explicitly.
-/

namespace Conciliapp

/-- A spreadsheet cell value: string, number (amounts), or date (epoch ms),
mirroring the value kinds the code stores and reads. -/
inductive Cell where
  | str : String → Cell
  | num : Rat → Cell
  | date : Int → Cell
  deriving DecidableEq, Repr

/-- JavaScript truthiness of a cell value: empty string, 0 are falsy;
a `Date` object is always truthy. -/
def Cell.truthy : Cell → Bool
  | .str s => s ≠ ""
  | .num q => q ≠ 0
  | .date _ => true

/-- JavaScript `String(v)` on a cell value.  Only string cells occur in the
columns the verified code converts (Vendedor, Sucursal, override columns). -/
def Cell.toStr : Cell → String
  | .str s => s
  | .num q => toString q
  | .date d => toString d

/-- `String(v || '')`: coerce a cell to a string after replacing a falsy
value by the empty string. -/
def Cell.toStrOrEmpty (c : Cell) : String :=
  if c.truthy then c.toStr else ""

/-- `new Date(v).getTime()` on a cell: `none` models `NaN` (the code never
stores the record timestamp as a plain string). -/
def Cell.getTime : Cell → Option Int
  | .str _ => none
  | .num q => some ⌊q⌋
  | .date d => some d

/-- `String.prototype.trim` on a character list (drop leading and trailing
whitespace). -/
def trimChars (l : List Char) : List Char :=
  (l.dropWhile Char.isWhitespace).rdropWhile Char.isWhitespace

/-- `String.prototype.trim`, computed on the character list. -/
def jsTrim (s : String) : String :=
  ⟨trimChars s.data⟩

/-- `String.prototype.toLowerCase`, computed on the character list. -/
def jsToLower (s : String) : String :=
  ⟨s.data.map Char.toLower⟩

/-- `normalizeEmail` from the source: non-strings map to the empty string,
strings are trimmed and lower-cased. -/
def normalizeEmail (email : String) : String :=
  jsToLower (jsTrim email)

/-- `normalizeEmail` applied to a raw cell value (`typeof email !== 'string'`
yields `''`). -/
def normalizeEmailCell : Cell → String
  | .str s => normalizeEmail s
  | _ => ""

/-- One partition sheet: its name and its data rows (rows 2..n of the real
sheet; the header row is implicit). -/
structure Sheet where
  name : String
  rows : List (List Cell)
  deriving DecidableEq, Repr

/-- `getSheetByName`: the first sheet carrying the given name. -/
def findSheet (sheets : List Sheet) (name : String) : Option Sheet :=
  sheets.find? (fun s => s.name = name)

/-- Apply `f` to the first sheet named `name`, leaving all others unchanged
(the semantics of mutating the sheet returned by `getSheetByName`). -/
def updateFirstSheet (sheets : List Sheet) (name : String) (f : Sheet → Sheet) :
    List Sheet :=
  match sheets with
  | [] => []
  | s :: rest =>
    if s.name = name then f s :: rest else s :: updateFirstSheet rest name f

/-- `Range.setValue` on a data row: pad the row with blank cells up to the
1-based column position `c`, then overwrite position `c` (0-based `c`). -/
def setRowCell (row : List Cell) (c : Nat) (v : Cell) : List Cell :=
  (row ++ List.replicate (c + 1 - row.length) (Cell.str "")).set c v

/-- Read a cell of a row, defaulting to blank (missing trailing columns read
as empty, as the spec's schema-drift rule requires). -/
def readRowCell (row : List Cell) (c : Nat) : Cell :=
  row.getD c (.str "")

/-- JavaScript `Map` built from an entry list (later entries overwrite
earlier ones): lookup returns the last binding for the key. -/
def jsMapGet {β : Type} (entries : List (String × β)) (k : String) : Option β :=
  entries.reverse.lookup k

/-- JavaScript `Map.set` / `CacheService.put`: later bindings win. -/
def jsMapPut {β : Type} (entries : List (String × β)) (k : String) (v : β) :
    List (String × β) :=
  entries ++ [(k, v)]

/-- JavaScript `Set` iteration order: deduplicate keeping the first
occurrence of every element. -/
def jsSetList {α : Type} [DecidableEq α] (l : List α) : List α :=
  (l.reverse.dedup).reverse

/-- The frozen `Respuestas` header template shared by every partition. -/
def respuestasHeaders : List String :=
  ["Timestamp", "Vendedor", "Codigo Cliente", "Nombre Cliente", "Factura",
   "Monto Pagado", "Forma de Pago", "Banco Emisor", "Banco Receptor",
   "Nro. de Referencia", "Tipo de Cobro", "Fecha de la Transferencia o Pago",
   "Observaciones", "Usuario Creador", "EstadoAnalista", "ComentarioAnalista",
   "AnalistaAsignado", "Sucursal", "id_registro", "FechaReconciliacion"]

/-- `headers.indexOf('AnalistaAsignado')` (0-based). -/
def analystColIndex : Nat := respuestasHeaders.indexOf "AnalistaAsignado"

/-- `headers.indexOf('EstadoAnalista')` (0-based). -/
def statusColIndex : Nat := respuestasHeaders.indexOf "EstadoAnalista"

/-- `headers.indexOf('Sucursal')` (0-based). -/
def sucursalColIndex : Nat := respuestasHeaders.indexOf "Sucursal"

/-- `headers.indexOf('Vendedor')` (0-based). -/
def vendedorColIndex : Nat := respuestasHeaders.indexOf "Vendedor"

/-- `headers.indexOf('ComentarioAnalista')` (0-based). -/
def commentColIndex : Nat := respuestasHeaders.indexOf "ComentarioAnalista"

/-- `headers.indexOf('id_registro')` (0-based). -/
def idRegistroColIndex : Nat := respuestasHeaders.indexOf "id_registro"

/-- `headers.indexOf('Nro. de Referencia')` (0-based): the 1-based column 10
read by the duplicate guard. -/
def referenceColIndex : Nat := respuestasHeaders.indexOf "Nro. de Referencia"

end Conciliapp

namespace Conciliapp

/-! ### Invoice CSV normalization (`CobranzaService._normalizeFacturaCsv`) -/

/-- `String.prototype.split(',')` on the character list of a string: always
returns at least one (possibly empty) token. -/
def splitComma : List Char → List (List Char)
  | [] => [[]]
  | c :: rest =>
    let ts := splitComma rest
    if c = ',' then [] :: ts
    else (c :: ts.headD []) :: ts.tail

/-- `Array.prototype.join(',')` on a token list. -/
def joinComma : List (List Char) → List Char
  | [] => []
  | [t] => t
  | t :: ts => t ++ ',' :: joinComma ts

/-- The body of `_normalizeFacturaCsv` on a character list: split on comma,
trim each token, drop empty tokens, re-join with bare commas. -/
def normalizeCsvChars (l : List Char) : List Char :=
  joinComma (((splitComma l).map trimChars).filter (fun t => decide (0 < t.length)))

/-- `CobranzaService._normalizeFacturaCsv`: falsy (empty) input maps to the
empty string, otherwise the split/trim/filter/join pipeline runs. -/
def _normalizeFacturaCsv (value : String) : String :=
  if value = "" then "" else ⟨normalizeCsvChars value.data⟩

end Conciliapp

namespace Conciliapp

/-! ### Lemmas about splitting, joining and trimming -/

theorem splitComma_ne_nil (l : List Char) : splitComma l ≠ [] := by
  cases l with
  | nil => simp [splitComma]
  | cons c rest => simp only [splitComma]; split <;> simp

theorem splitComma_eq_single {t : List Char} (h : ',' ∉ t) : splitComma t = [t] := by
  induction t with
  | nil => rfl
  | cons c rest ih =>
    have hc : c ≠ ',' := fun e => h (e ▸ List.mem_cons_self _ _)
    have hr : (',' : Char) ∉ rest := fun m => h (List.mem_cons_of_mem _ m)
    simp [splitComma, hc, ih hr]

theorem splitComma_append (t rest : List Char) (h : ',' ∉ t) :
    splitComma (t ++ ',' :: rest) = t :: splitComma rest := by
  induction t with
  | nil => simp [splitComma]
  | cons c t' ih =>
    have hc : c ≠ ',' := fun e => h (e ▸ List.mem_cons_self _ _)
    have ht' : (',' : Char) ∉ t' := fun m => h (List.mem_cons_of_mem _ m)
    simp [splitComma, hc, ih ht']

theorem splitComma_joinComma : ∀ ts : List (List Char), ts ≠ [] →
    (∀ t ∈ ts, ',' ∉ t) → splitComma (joinComma ts) = ts
  | [t], _, h => splitComma_eq_single (h t (by simp))
  | t :: t' :: ts, _, h => by
    have ihyp := splitComma_joinComma (t' :: ts) (by simp)
      (fun x hx => h x (List.mem_cons_of_mem _ hx))
    simp only [joinComma]
    rw [splitComma_append _ _ (h t (by simp)), ihyp]

theorem not_comma_mem_splitComma (l : List Char) : ∀ t ∈ splitComma l, ',' ∉ t := by
  induction l with
  | nil =>
    intro t ht
    simp [splitComma] at ht
    simp [ht]
  | cons c rest ih =>
    intro t ht
    simp only [splitComma] at ht
    by_cases hc : c = ','
    · rw [if_pos hc] at ht
      rcases List.mem_cons.mp ht with h | h
      · simp [h]
      · exact ih t h
    · rw [if_neg hc] at ht
      rcases List.mem_cons.mp ht with h | h
      · subst h
        intro hm
        rcases List.mem_cons.mp hm with e | e
        · exact hc e.symm
        · obtain ⟨h0, ts0, e0⟩ := List.exists_cons_of_ne_nil (splitComma_ne_nil rest)
          rw [e0] at e
          simp only [List.headD_cons] at e
          exact ih h0 (by rw [e0]; exact List.mem_cons_self _ _) e
      · exact ih t (List.mem_of_mem_tail h)

theorem joinComma_ne_nil : ∀ ts : List (List Char), ts ≠ [] →
    (∀ t ∈ ts, t ≠ []) → joinComma ts ≠ []
  | [t], _, h => h t (by simp)
  | _ :: _ :: _, _, _ => by simp [joinComma]

theorem trimChars_idem (l : List Char) : trimChars (trimChars l) = trimChars l := by
  unfold trimChars
  have h1 : List.dropWhile Char.isWhitespace (l.dropWhile Char.isWhitespace)
      = l.dropWhile Char.isWhitespace := List.dropWhile_idempotent _ _
  set u := l.dropWhile Char.isWhitespace with hu
  have h2 : List.dropWhile Char.isWhitespace (List.rdropWhile Char.isWhitespace u)
      = List.rdropWhile Char.isWhitespace u := by
    rcases hpre : List.rdropWhile Char.isWhitespace u with _ | ⟨a, v⟩
    · simp
    · have hp : List.rdropWhile Char.isWhitespace u <+: u := List.rdropWhile_prefix _ _
      rw [hpre] at hp
      obtain ⟨s, hs⟩ := hp
      rw [← hs] at h1
      have ha : Char.isWhitespace a = false := by
        by_contra hb
        rw [Bool.not_eq_false] at hb
        rw [List.cons_append, List.dropWhile_cons_of_pos hb] at h1
        have hle := (List.dropWhile_sublist (l := v ++ s) Char.isWhitespace).length_le
        rw [h1] at hle
        simp at hle
      rw [List.dropWhile_cons_of_neg (by simp [ha])]
  rw [h2, List.rdropWhile_idempotent]

theorem mem_of_mem_trimChars {a : Char} {l : List Char} (h : a ∈ trimChars l) :
    a ∈ l := by
  unfold trimChars at h
  exact (List.dropWhile_suffix _).sublist.subset
    ((List.rdropWhile_prefix _ _).sublist.subset h)

theorem normalizeCsvChars_idem (l : List Char) :
    normalizeCsvChars (normalizeCsvChars l) = normalizeCsvChars l := by
  unfold normalizeCsvChars
  set ts := ((splitComma l).map trimChars).filter (fun t => decide (0 < t.length))
    with hts
  have hmem : ∀ t ∈ ts, ',' ∉ t ∧ t ≠ [] ∧ trimChars t = t := by
    intro t ht
    rw [hts] at ht
    have h1 := List.of_mem_filter ht
    have h2 := List.mem_of_mem_filter ht
    obtain ⟨u, hu, rfl⟩ := List.mem_map.mp h2
    refine ⟨?_, ?_, trimChars_idem u⟩
    · exact fun hc => not_comma_mem_splitComma l u hu (mem_of_mem_trimChars hc)
    · intro e
      rw [e] at h1
      simp at h1
  by_cases h : ts = []
  · rw [h]
    rfl
  · have hsplit : splitComma (joinComma ts) = ts :=
      splitComma_joinComma ts h (fun t ht => (hmem t ht).1)
    rw [hsplit]
    have hmap : ts.map trimChars = ts := by
      have := List.map_congr_left (f := trimChars) (g := id)
        (fun t ht => (hmem t ht).2.2)
      rwa [List.map_id] at this
    rw [hmap]
    have hfil : ts.filter (fun t => decide (0 < t.length)) = ts := by
      rw [List.filter_eq_self]
      intro t ht
      have : t ≠ [] := (hmem t ht).2.1
      simpa [List.length_pos] using this
    rw [hfil]

/-- C9: invoice-list normalization is idempotent — applying
`_normalizeFacturaCsv` to its own output returns that output unchanged. -/
theorem normalizeFacturaCsv_idempotent (s : String) :
    _normalizeFacturaCsv (_normalizeFacturaCsv s) = _normalizeFacturaCsv s := by
  unfold _normalizeFacturaCsv
  by_cases h : s = ""
  · simp [h]
  · rw [if_neg h]
    by_cases h2 : (⟨normalizeCsvChars s.data⟩ : String) = ""
    · rw [if_pos h2]
      exact h2.symm
    · rw [if_neg h2]
      exact congrArg String.mk (normalizeCsvChars_idem s.data)

end Conciliapp

namespace Conciliapp

/-! ### Partition router and ingestion service (`CobranzaService.submitData`) -/

/-- A seller row from `fetchAllVendedoresFromSheet`. -/
structure Seller where
  nombre : String
  codigo : String
  sucursal : String
  deriving DecidableEq, Repr

/-- A JavaScript `Date`: the components `getFullYear`/`getMonth` (0-based)
read by the partition router, plus `getTime()` epoch milliseconds. -/
structure JSDate where
  year : Nat
  month : Nat
  epochMs : Int
  deriving DecidableEq, Repr

/-- The locale-invariant month-abbreviation table of `getPartitionName`. -/
def monthNames : List String :=
  ["ene", "feb", "mar", "abr", "may", "jun", "jul", "ago", "sep", "oct",
   "nov", "dic"]

/-- The partition options `submitData` builds: the `PARTITION_BY` selector
plus the record's vendor and receiving-bank codes. -/
structure PartitionOpts where
  partitionBy : String
  vendedor : String
  banco : String
  deriving DecidableEq, Repr

/-- `getPartitionName` from the partitioning logic: strategy-dependent tag,
four-digit year and abbreviated month. -/
def getPartitionName (date : JSDate) (opts : PartitionOpts) : String :=
  let year := toString date.year
  let month := monthNames.getD date.month ""
  let pfx :=
    if opts.partitionBy = "VENDOR" ∧ opts.vendedor ≠ "" then
      "V_" ++ opts.vendedor ++ "_"
    else if opts.partitionBy = "BANK" ∧ opts.banco ≠ "" then
      "B_" ++ opts.banco ++ "_"
    else if opts.partitionBy = "VENDOR_AND_BANK" ∧ opts.vendedor ≠ "" ∧
        opts.banco ≠ "" then
      "V_" ++ opts.vendedor ++ "_B_" ++ opts.banco ++ "_"
    else "REG_"
  pfx ++ year ++ "_" ++ month

/-- `ensurePartitionSheet`: idempotent creation of the named partition (new
sheets start with the frozen header and no data rows). -/
def ensurePartitionSheet (sheets : List Sheet) (name : String) : List Sheet :=
  match findSheet sheets name with
  | some _ => sheets
  | none => sheets ++ [⟨name, []⟩]

/-- The submission payload consumed by `submitData` (already destructured;
`montoPagado` is the `parseFloat` result, `none` modelling `NaN`). -/
structure SubmitPayload where
  factura : String
  documento : String
  montoPagado : Option Rat
  vendedor : String
  cliente : String
  nombreCliente : String
  formaPago : String
  bancoEmisor : String
  bancoReceptor : String
  nroReferencia : String
  tipoCobro : String
  fechaTransferenciaPago : String
  observaciones : String
  estadoAnalista : String
  comentarioAnalista : String
  analistaAsignado : String
  deriving DecidableEq, Repr

/-- The 19-cell row `submitData` appends to the resolved partition. -/
def submitRow (data : SubmitPayload) (userEmail : String) (now : JSDate)
    (montoNum : Rat) (facturaCsv nombreVendedor sucursal idRegistro : String) :
    List Cell :=
  [.date now.epochMs, .str nombreVendedor, .str data.cliente,
   .str data.nombreCliente, .str facturaCsv, .num montoNum, .str data.formaPago,
   .str data.bancoEmisor, .str data.bancoReceptor, .str data.nroReferencia,
   .str data.tipoCobro, .str data.fechaTransferenciaPago, .str data.observaciones,
   .str userEmail, .str data.estadoAnalista, .str data.comentarioAnalista,
   .str data.analistaAsignado, .str sucursal, .str idRegistro]

/-- The reference-number column (1-based column 10 in the source) of the
named partition, empty when the partition does not exist. -/
def partitionRefs (sheets : List Sheet) (name : String) : List Cell :=
  (((findSheet sheets name).map Sheet.rows).getD []).map
    (fun r => readRowCell r referenceColIndex)

/-- `CobranzaService.submitData`: validation, partition resolution with the
current timestamp, per-partition duplicate-reference guard, append.
The partition selector and the seller roster are the externally configured
inputs the code reads; `idRegistro` stands for the generated unique id. -/
def submitData (sheets : List Sheet) (data : SubmitPayload) (userEmail : String)
    (now : JSDate) (partitionBy : String) (allSellers : List Seller)
    (idRegistro : String) : Except String (List Sheet × String) :=
  let facturaCsvRaw := if data.factura ≠ "" then data.factura else data.documento
  let facturaCsv := _normalizeFacturaCsv facturaCsvRaw
  if facturaCsv = "" then .error "Debe indicar al menos una factura."
  else
    match data.montoPagado with
    | none => .error "Monto inválido."
    | some montoNum =>
      if montoNum ≤ 0 then .error "Monto inválido."
      else if data.vendedor = "" then .error "Vendedor requerido."
      else if data.cliente = "" then .error "Código de cliente requerido."
      else
        let partitionName :=
          getPartitionName now ⟨partitionBy, data.vendedor, data.bancoReceptor⟩
        let sheets1 := ensurePartitionSheet sheets partitionName
        let partitionRows := ((findSheet sheets1 partitionName).map Sheet.rows).getD []
        let existingReferences :=
          if partitionRows.isEmpty then []
          else partitionRows.map (fun r => readRowCell r referenceColIndex)
        if Cell.str data.nroReferencia ∈ existingReferences then
          .error "El número de referencia ya existe en esta partición."
        else
          let vendedorEncontrado := allSellers.find? (fun v => v.codigo = data.vendedor)
          let nombreCompletoVendedor := (vendedorEncontrado.map Seller.nombre).getD data.vendedor
          let sucursal := (vendedorEncontrado.map Seller.sucursal).getD ""
          let row := submitRow data userEmail now montoNum facturaCsv
            nombreCompletoVendedor sucursal idRegistro
          .ok (updateFirstSheet sheets1 partitionName
                (fun s => ⟨s.name, s.rows ++ [row]⟩),
               "¡Datos recibidos con éxito!")

end Conciliapp

namespace Conciliapp

theorem partitionRefs_ensure (sheets : List Sheet) (name : String) :
    partitionRefs (ensurePartitionSheet sheets name) name = partitionRefs sheets name := by
  unfold partitionRefs ensurePartitionSheet
  cases h : findSheet sheets name with
  | some s => simp [h]
  | none =>
    unfold findSheet at h
    simp [findSheet, List.find?_append, h]

theorem existingReferences_eq (sheets : List Sheet) (name : String) :
    (if (((findSheet (ensurePartitionSheet sheets name) name).map Sheet.rows).getD []).isEmpty
      then ([] : List Cell)
      else (((findSheet (ensurePartitionSheet sheets name) name).map Sheet.rows).getD []).map
        (fun r => readRowCell r referenceColIndex)) = partitionRefs sheets name := by
  rw [← partitionRefs_ensure sheets name]
  unfold partitionRefs
  cases hrows : ((findSheet (ensurePartitionSheet sheets name) name).map Sheet.rows).getD [] <;>
    simp [hrows]

/-- C3: `submitData` rejects a submission with a conflict error exactly when
the incoming reference number already appears in the reference column of the
resolved partition; when it does not (even if other partitions contain it),
the submission succeeds and the row is appended to the resolved partition
only.  In particular the second of two same-reference submissions into one
partition is rejected, while the same reference into two distinct partitions
succeeds for both. -/
theorem submitData_duplicate_guard
    (sheets : List Sheet) (data : SubmitPayload) (userEmail : String)
    (now : JSDate) (partitionBy : String) (allSellers : List Seller)
    (idRegistro : String) (m : Rat)
    (hf : _normalizeFacturaCsv
        (if data.factura ≠ "" then data.factura else data.documento) ≠ "")
    (hm : data.montoPagado = some m) (hm0 : 0 < m)
    (hv : data.vendedor ≠ "") (hc : data.cliente ≠ "") :
    (Cell.str data.nroReferencia ∈ partitionRefs sheets
        (getPartitionName now ⟨partitionBy, data.vendedor, data.bancoReceptor⟩) →
      submitData sheets data userEmail now partitionBy allSellers idRegistro =
        .error "El número de referencia ya existe en esta partición.")
    ∧ (Cell.str data.nroReferencia ∉ partitionRefs sheets
        (getPartitionName now ⟨partitionBy, data.vendedor, data.bancoReceptor⟩) →
      submitData sheets data userEmail now partitionBy allSellers idRegistro =
        .ok (updateFirstSheet
              (ensurePartitionSheet sheets
                (getPartitionName now ⟨partitionBy, data.vendedor, data.bancoReceptor⟩))
              (getPartitionName now ⟨partitionBy, data.vendedor, data.bancoReceptor⟩)
              (fun s => ⟨s.name, s.rows ++ [submitRow data userEmail now m
                (_normalizeFacturaCsv
                  (if data.factura ≠ "" then data.factura else data.documento))
                (((allSellers.find? (fun v => v.codigo = data.vendedor)).map
                    Seller.nombre).getD data.vendedor)
                (((allSellers.find? (fun v => v.codigo = data.vendedor)).map
                    Seller.sucursal).getD "")
                idRegistro]⟩),
             "¡Datos recibidos con éxito!")) := by
  constructor <;> intro hmem <;>
    · simp only [submitData, hm]
      rw [if_neg hf, if_neg (not_le.mpr hm0), if_neg hv, if_neg hc,
        existingReferences_eq]
      simp [hmem]

end Conciliapp

namespace Conciliapp

theorem submitData_duplicate_guard_witness :
    (submitData [⟨"V_V001_2025_mar", [List.replicate 9 (Cell.str "") ++ [Cell.str "REF123"]]⟩]
        (⟨"F1", "", some 10, "V001", "C1", "N", "Pago Movil", "BE", "BCO1", "REF123",
          "Cobro", "2025-03-15", "", "", "", ""⟩ : SubmitPayload)
        "u@x.com" ⟨2025, 2, 1000⟩ "VENDOR" [] "id1"
      = .error "El número de referencia ya existe en esta partición.")
    ∧ (submitData [⟨"REG_2025_mar", [List.replicate 9 (Cell.str "") ++ [Cell.str "REF123"]]⟩]
        (⟨"F1", "", some 10, "V001", "C1", "N", "Pago Movil", "BE", "BCO1", "REF123",
          "Cobro", "2025-03-15", "", "", "", ""⟩ : SubmitPayload)
        "u@x.com" ⟨2025, 2, 1000⟩ "VENDOR" [] "id1").isOk = true := by
  constructor
  · exact (submitData_duplicate_guard _ _ _ _ _ _ _ 10 (by decide) rfl (by norm_num)
      (by decide) (by decide)).1 (by decide)
  · rw [(submitData_duplicate_guard _ _ _ _ _ _ _ 10 (by decide) rfl (by norm_num)
      (by decide) (by decide)).2 (by decide)]
    rfl

end Conciliapp

namespace Conciliapp

/-! ### Record deletion (`CobranzaService.deleteRecord`) -/

/-- The deletion grace window, in milliseconds. -/
def FIVE_MINUTES_IN_MS : Int := 5 * 60 * 1000

/-- `ageInMs > FIVE_MINUTES_IN_MS` on the record's Timestamp cell; a `NaN`
timestamp (unparseable cell) makes the comparison false, as in JavaScript. -/
def ageExceedsWindow (c : Cell) (now : Int) : Bool :=
  match c.getTime with
  | some t => decide (FIVE_MINUTES_IN_MS < now - t)
  | none => false

/-- State touched by `deleteRecord`: the partition sheets and the
`Registros Eliminados` immutable deletion log. -/
structure DeleteState where
  sheets : List Sheet
  deletedLog : List (List Cell)
  deriving DecidableEq, Repr

/-- `CobranzaService.deleteRecord`: locator validity, creator-only guard
(column 14, 0-based 13), the 5-minute age guard, then copy to the deletion
log and remove the row. -/
def deleteRecord (st : DeleteState) (sheetName : String) (rowNum : Nat)
    (userEmail : String) (now : Int) : Except String (DeleteState × String) :=
  if sheetName = "" ∨ rowNum = 0 then
    .error "Información de registro inválida para eliminación."
  else
    match findSheet st.sheets sheetName with
    | none => .error ("La hoja de partición \x27" ++ sheetName ++ "\x27 no fue encontrada.")
    | some sheet =>
      let rowToDelete := sheet.rows.getD (rowNum - 2) []
      if readRowCell rowToDelete 13 ≠ Cell.str userEmail then
        .error "No tienes permiso para eliminar este registro."
      else if ageExceedsWindow (readRowCell rowToDelete 0) now then
        .error "No se puede eliminar un registro después de 5 minutos de su creación."
      else
        .ok (⟨updateFirstSheet st.sheets sheetName
                (fun s => ⟨s.name, s.rows.eraseIdx (rowNum - 2)⟩),
              st.deletedLog ++ [[Cell.date now, Cell.str userEmail] ++ rowToDelete]⟩,
             "Registro eliminado y archivado con éxito.")

/-- C8 counterexample: at age exactly 5 minutes (`now - createdAt =
300000 ms`, not `< 5 minutes`) the deletion by the creator still succeeds,
so "deletable only while `now - createdAt < 5 minutes`" is false as stated:
the code rejects only ages strictly greater than the window. -/
theorem deleteRecord_boundary_counterexample :
    (deleteRecord
        ⟨[⟨"REG_2025_mar",
            [[Cell.date 0] ++ List.replicate 12 (Cell.str "") ++
              [Cell.str "creator@x.com"]]⟩], []⟩
        "REG_2025_mar" 2 "creator@x.com" 300000).isOk = true
    ∧ ¬((300000 : Int) - 0 < FIVE_MINUTES_IN_MS) := by
  constructor
  · rfl
  · decide

/-- C8 (amended): `deleteRecord` succeeds only for the record's original
creator while `now - createdAt ≤ 5 minutes` (the boundary is inclusive);
a different identity or an age strictly beyond the window fails with no
state change; every successful deletion appends deletion date, deleter and
the full record row to the deletion log and removes the row from its
partition. -/
theorem deleteRecord_creator_window
    (st : DeleteState) (sheetName : String) (rowNum : Nat) (userEmail : String)
    (now : Int) (sheet : Sheet)
    (hname : sheetName ≠ "") (hrow : rowNum ≠ 0)
    (hfind : findSheet st.sheets sheetName = some sheet) :
    (readRowCell (sheet.rows.getD (rowNum - 2) []) 13 ≠ Cell.str userEmail →
        deleteRecord st sheetName rowNum userEmail now =
          .error "No tienes permiso para eliminar este registro.")
    ∧ (∀ t, readRowCell (sheet.rows.getD (rowNum - 2) []) 13 = Cell.str userEmail →
        (readRowCell (sheet.rows.getD (rowNum - 2) []) 0).getTime = some t →
        FIVE_MINUTES_IN_MS < now - t →
        deleteRecord st sheetName rowNum userEmail now =
          .error "No se puede eliminar un registro después de 5 minutos de su creación.")
    ∧ (∀ t, readRowCell (sheet.rows.getD (rowNum - 2) []) 13 = Cell.str userEmail →
        (readRowCell (sheet.rows.getD (rowNum - 2) []) 0).getTime = some t →
        now - t ≤ FIVE_MINUTES_IN_MS →
        deleteRecord st sheetName rowNum userEmail now =
          .ok (⟨updateFirstSheet st.sheets sheetName
                  (fun s => ⟨s.name, s.rows.eraseIdx (rowNum - 2)⟩),
                st.deletedLog ++
                  [[Cell.date now, Cell.str userEmail] ++
                    sheet.rows.getD (rowNum - 2) []]⟩,
               "Registro eliminado y archivado con éxito.")) := by
  refine ⟨?_, ?_, ?_⟩
  · intro hid
    simp only [deleteRecord, hfind]
    rw [if_neg (by simp [hname, hrow]), if_pos hid]
  · intro t hid htime hage
    simp only [deleteRecord, hfind]
    rw [if_neg (by simp [hname, hrow]), if_neg (not_not_intro hid),
      if_pos (by unfold ageExceedsWindow; rw [htime]; simpa using hage)]
  · intro t hid htime hage
    simp only [deleteRecord, hfind]
    rw [if_neg (by simp [hname, hrow]), if_neg (not_not_intro hid),
      if_neg (by unfold ageExceedsWindow; rw [htime]; simp; omega)]

theorem deleteRecord_creator_window_witness :
    deleteRecord
        ⟨[⟨"REG_2025_mar",
            [[Cell.date 0] ++ List.replicate 12 (Cell.str "") ++
              [Cell.str "creator@x.com"]]⟩], []⟩
        "REG_2025_mar" 2 "creator@x.com" 100000 =
      .ok (⟨[⟨"REG_2025_mar", []⟩],
            [[Cell.date 100000, Cell.str "creator@x.com"] ++
              [Cell.date 0] ++ List.replicate 12 (Cell.str "") ++
              [Cell.str "creator@x.com"]]⟩,
           "Registro eliminado y archivado con éxito.") := by
  have h := (deleteRecord_creator_window
      ⟨[⟨"REG_2025_mar",
          [[Cell.date 0] ++ List.replicate 12 (Cell.str "") ++
            [Cell.str "creator@x.com"]]⟩], []⟩
      "REG_2025_mar" 2 "creator@x.com" 100000
      ⟨"REG_2025_mar",
        [[Cell.date 0] ++ List.replicate 12 (Cell.str "") ++
          [Cell.str "creator@x.com"]]⟩
      (by decide) (by decide) rfl).2.2 0 (by decide) rfl (by decide)
  rw [h]
  rfl

end Conciliapp

namespace Conciliapp

/-! ### Review state machine (`updateRecordStatus`) -/

/-- The identity resolved by `withAuth`. -/
structure UserT where
  email : String
  role : String
  deriving DecidableEq, Repr

/-- `headers.indexOf('EstadoAnalista') + 1` (1-based column). -/
def statusColNum : Nat := statusColIndex + 1

/-- `headers.indexOf('ComentarioAnalista') + 1` (1-based column). -/
def commentColNum : Nat := commentColIndex + 1

/-- `headers.indexOf('AnalistaAsignado') + 1` (1-based column). -/
def analystColNum : Nat := analystColIndex + 1

/-- `headers.indexOf('id_registro') + 1` (1-based column). -/
def idRegistroColNum : Nat := idRegistroColIndex + 1

/-- The three valid review states. -/
def validStatuses : List String := ["Procesado", "Rechazado", "Pendiente"]

/-- A primitive persistent write of `updateRecordStatus`, listed in program
order: the audit-sheet append and the `setValue` cell writes. -/
inductive WriteOp where
  | auditAppend : List Cell → WriteOp
  | setCell : String → Nat → Nat → Cell → WriteOp
  deriving DecidableEq, Repr

/-- Whether a write op is the audit append. -/
def WriteOp.isAudit : WriteOp → Bool
  | .auditAppend _ => true
  | _ => false

/-- `sheet.getRange(rowIndex, colNum).getValue()` (both arguments 1-based,
data rows starting at sheet row 2). -/
def getSheetCell (sheet : Sheet) (rowIndex colNum : Nat) : Cell :=
  readRowCell (sheet.rows.getD (rowIndex - 2) []) (colNum - 1)

/-- `updateRecordStatus`: role, status and comment validation, locator
deserialization, ownership check, then — in program order — the audit append
followed by the status write and the comment write/clear.  Returns the write
ops and the confirmation message. -/
def updateRecordStatus (sheets : List Sheet) (user : UserT) (sheetName : String)
    (rowIndex : Nat) (newStatus : String) (comment : Option String) (now : Int) :
    Except String (List WriteOp × String) :=
  if user.role ≠ "Analista" ∧ user.role ≠ "Admin" then
    .error "Acceso denegado. Se requiere rol de Analista o Administrador."
  else if newStatus ∉ validStatuses then
    .error "El estado proporcionado no es válido."
  else if newStatus = "Rechazado" ∧ jsTrim (comment.getD "") = "" then
    .error "Se requiere un comentario para rechazar un registro."
  else if sheetName = "" ∨ rowIndex = 0 then
    .error "El identificador del registro es inválido o está corrupto."
  else
    match findSheet sheets sheetName with
    | none =>
      .error ("La hoja de partición \x27" ++ sheetName ++ "\x27 no fue encontrada.")
    | some sheet =>
      if statusColNum = 0 ∨ commentColNum = 0 ∨ analystColNum = 0 ∨
          idRegistroColNum = 0 then
        .error "Una o más columnas críticas (Estado, Comentario, Analista, ID) no están configuradas en la hoja de respuestas."
      else if user.role = "Analista" ∧
          normalizeEmailCell (getSheetCell sheet rowIndex analystColNum) ≠
            normalizeEmail user.email then
        .error "No tiene permiso para modificar un registro que no le ha sido asignado."
      else
        let currentStatus :=
          if (getSheetCell sheet rowIndex statusColNum).truthy then
            getSheetCell sheet rowIndex statusColNum
          else Cell.str "Pendiente"
        let recordId := getSheetCell sheet rowIndex idRegistroColNum
        let entry : List Cell :=
          [Cell.date now, Cell.str user.email, recordId, currentStatus,
           Cell.str newStatus, Cell.str (comment.getD "")]
        let commentOps :=
          if newStatus = "Pendiente" then
            [WriteOp.setCell sheetName rowIndex commentColNum (Cell.str "")]
          else
            match comment with
            | some c =>
              if c ≠ "" then
                [WriteOp.setCell sheetName rowIndex commentColNum (Cell.str c)]
              else []
            | none => []
        .ok ([WriteOp.auditAppend entry,
              WriteOp.setCell sheetName rowIndex statusColNum (Cell.str newStatus)]
              ++ commentOps,
             "Registro actualizado a \"" ++ newStatus ++ "\" con éxito.")

/-- The state `updateRecordStatus` mutates: the partition sheets and the
`Auditoria_Analistas` audit log. -/
structure ReviewState where
  sheets : List Sheet
  auditLog : List (List Cell)
  deriving DecidableEq, Repr

/-- `setValue` on the first sheet with the given name. -/
def setSheetCell (sheets : List Sheet) (name : String) (rowIndex colNum : Nat)
    (v : Cell) : List Sheet :=
  updateFirstSheet sheets name (fun s =>
    ⟨s.name, s.rows.set (rowIndex - 2)
        (setRowCell (s.rows.getD (rowIndex - 2) []) (colNum - 1) v)⟩)

/-- Apply one write op to the review state. -/
def applyWriteOp (st : ReviewState) : WriteOp → ReviewState
  | .auditAppend e => ⟨st.sheets, st.auditLog ++ [e]⟩
  | .setCell name r c v => ⟨setSheetCell st.sheets name r c v, st.auditLog⟩

/-- Run `updateRecordStatus` against a state: on failure the state is
untouched; on success the ops are applied in program order. -/
def runUpdateRecordStatus (st : ReviewState) (user : UserT) (sheetName : String)
    (rowIndex : Nat) (newStatus : String) (comment : Option String) (now : Int) :
    ReviewState × Except String String :=
  match updateRecordStatus st.sheets user sheetName rowIndex newStatus comment now with
  | .ok (ops, msg) => (ops.foldl applyWriteOp st, .ok msg)
  | .error e => (st, .error e)

end Conciliapp

namespace Conciliapp

/-! ### Cell read/write lemmas -/

theorem readRowCell_setRowCell_eq (row : List Cell) (c : Nat) (v : Cell) :
    readRowCell (setRowCell row c v) c = v := by
  unfold readRowCell setRowCell
  rw [List.getD_eq_getElem?_getD, List.getElem?_set_self (by simp; omega)]
  rfl

theorem readRowCell_setRowCell_ne (row : List Cell) (c c' : Nat) (v : Cell)
    (h : c' ≠ c) : readRowCell (setRowCell row c v) c' = readRowCell row c' := by
  unfold readRowCell setRowCell
  rw [List.getD_eq_getElem?_getD, List.getD_eq_getElem?_getD,
    List.getElem?_set_ne (Ne.symm h)]
  by_cases hlt : c' < row.length
  · rw [List.getElem?_append_left hlt]
  · rw [List.getElem?_append_right (Nat.le_of_not_lt hlt),
      List.getElem?_eq_none (Nat.le_of_not_lt hlt)]
    rw [List.getElem?_replicate]
    split <;> rfl

theorem findSheet_updateFirstSheet (sheets : List Sheet) (name : String)
    (f : Sheet → Sheet) (hf : ∀ s, (f s).name = s.name) :
    findSheet (updateFirstSheet sheets name f) name =
      (findSheet sheets name).map f := by
  induction sheets with
  | nil => rfl
  | cons s rest ih =>
    by_cases h : s.name = name
    · simp [updateFirstSheet, findSheet, h, hf s]
    · simp only [updateFirstSheet, if_neg h]
      simp only [findSheet] at ih ⊢
      rw [List.find?_cons, List.find?_cons]
      rw [decide_eq_false h]
      exact ih

theorem findSheet_updateFirstSheet_other (sheets : List Sheet)
    (name name' : String) (f : Sheet → Sheet) (hf : ∀ s, (f s).name = s.name)
    (hne : name' ≠ name) :
    findSheet (updateFirstSheet sheets name f) name' = findSheet sheets name' := by
  induction sheets with
  | nil => rfl
  | cons s rest ih =>
    by_cases h : s.name = name
    · simp only [updateFirstSheet, if_pos h]
      simp only [findSheet, List.find?_cons, hf s]
      have hne2 : s.name ≠ name' := fun e => hne (by rw [← e, h])
      rw [decide_eq_false hne2]
    · simp only [updateFirstSheet, if_neg h]
      simp only [findSheet, List.find?_cons] at ih ⊢
      cases hd : decide (s.name = name') <;> simp [hd, ih]

/-- Read a cell through `getSheetByName`, blank when no such sheet exists. -/
def readCellByName (sheets : List Sheet) (name : String) (r c : Nat) : Cell :=
  match findSheet sheets name with
  | some s => getSheetCell s r c
  | none => Cell.str ""

theorem readCellByName_setSheetCell_eq (sheets : List Sheet) (name : String)
    (r c : Nat) (v : Cell) (s : Sheet)
    (hfind : findSheet sheets name = some s) (hr : r - 2 < s.rows.length) :
    readCellByName (setSheetCell sheets name r c v) name r c = v := by
  unfold readCellByName setSheetCell
  rw [findSheet_updateFirstSheet sheets name
    (fun s => ⟨s.name, s.rows.set (r - 2)
      (setRowCell (s.rows.getD (r - 2) []) (c - 1) v)⟩) (fun _ => rfl), hfind]
  simp only [Option.map_some']
  unfold getSheetCell
  rw [List.getD_eq_getElem?_getD, List.getElem?_set_self (by simpa using hr)]
  simp only [Option.getD_some]
  exact readRowCell_setRowCell_eq _ _ _

end Conciliapp

namespace Conciliapp

theorem findSheet_setSheetCell_self (sheets : List Sheet) (name : String)
    (r c : Nat) (v : Cell) :
    findSheet (setSheetCell sheets name r c v) name =
      (findSheet sheets name).map (fun s =>
        ⟨s.name, s.rows.set (r - 2)
          (setRowCell (s.rows.getD (r - 2) []) (c - 1) v)⟩) := by
  unfold setSheetCell
  exact findSheet_updateFirstSheet sheets name _ (fun _ => rfl)

/-- C5: `updateRecordStatus` fails on an invalid `newStatus`, fails on
`Rechazado` with a null/blank comment, succeeds on `Rechazado` with a
non-blank comment (given role, locator, sheet and ownership preconditions),
and a successful `Pendiente` transition clears the stored comment cell. -/
theorem updateRecordStatus_validation
    (sheets : List Sheet) (audit : List (List Cell)) (user : UserT)
    (sheetName : String) (rowIndex : Nat) (newStatus : String)
    (comment : Option String) (now : Int) :
    (newStatus ∉ validStatuses →
      ∃ e, updateRecordStatus sheets user sheetName rowIndex newStatus comment now
        = .error e)
    ∧ (newStatus = "Rechazado" → jsTrim (comment.getD "") = "" →
      ∃ e, updateRecordStatus sheets user sheetName rowIndex newStatus comment now
        = .error e)
    ∧ (∀ sheet, user.role = "Admin" → newStatus = "Rechazado" →
        jsTrim (comment.getD "") ≠ "" → sheetName ≠ "" → rowIndex ≠ 0 →
        findSheet sheets sheetName = some sheet →
        (updateRecordStatus sheets user sheetName rowIndex newStatus comment now).isOk
          = true)
    ∧ (∀ sheet, user.role = "Admin" → sheetName ≠ "" → rowIndex ≠ 0 →
        findSheet sheets sheetName = some sheet →
        rowIndex - 2 < sheet.rows.length →
        readCellByName
          (runUpdateRecordStatus ⟨sheets, audit⟩ user sheetName rowIndex
            "Pendiente" comment now).1.sheets
          sheetName rowIndex commentColNum = Cell.str "") := by
  refine ⟨?_, ?_, ?_, ?_⟩
  · intro hbad
    unfold updateRecordStatus
    by_cases hrole : user.role ≠ "Analista" ∧ user.role ≠ "Admin"
    · exact ⟨_, by rw [if_pos hrole]⟩
    · exact ⟨_, by rw [if_neg hrole, if_pos hbad]⟩
  · intro hrej hblank
    unfold updateRecordStatus
    by_cases hrole : user.role ≠ "Analista" ∧ user.role ≠ "Admin"
    · exact ⟨_, by rw [if_pos hrole]⟩
    · by_cases hbad : newStatus ∉ validStatuses
      · exact ⟨_, by rw [if_neg hrole, if_pos hbad]⟩
      · exact ⟨_, by rw [if_neg hrole, if_neg hbad, if_pos ⟨hrej, hblank⟩]⟩
  · intro sheet hadmin hrej hcomm hname hrow hfind
    subst hrej
    unfold updateRecordStatus
    simp +decide [hadmin, hcomm, hname, hrow, hfind, validStatuses, Except.isOk,
      Except.toBool]
  · intro sheet hadmin hname hrow hfind hlen
    unfold runUpdateRecordStatus updateRecordStatus
    simp +decide [hadmin, hname, hrow, hfind, validStatuses,
      List.foldl_cons, List.foldl_nil, applyWriteOp]
    exact readCellByName_setSheetCell_eq _ _ _ _ _ _
      (by rw [findSheet_setSheetCell_self, hfind]; rfl)
      (by simpa using hlen)

/-- C6: a non-admin reviewer calling `updateRecordStatus` on a record whose
assigned analyst is not their own identity gets a permission error and the
state is unchanged; an admin caller passes the ownership check and the call
succeeds on any record. -/
theorem updateRecordStatus_ownership
    (sheets : List Sheet) (audit : List (List Cell)) (user : UserT)
    (sheetName : String) (rowIndex : Nat) (newStatus : String)
    (comment : Option String) (now : Int) (sheet : Sheet)
    (hstat : newStatus ∈ validStatuses)
    (hcomm : ¬(newStatus = "Rechazado" ∧ jsTrim (comment.getD "") = ""))
    (hname : sheetName ≠ "") (hrow : rowIndex ≠ 0)
    (hfind : findSheet sheets sheetName = some sheet) :
    (user.role = "Analista" →
      normalizeEmailCell (getSheetCell sheet rowIndex analystColNum) ≠
        normalizeEmail user.email →
      updateRecordStatus sheets user sheetName rowIndex newStatus comment now =
        .error "No tiene permiso para modificar un registro que no le ha sido asignado."
      ∧ (runUpdateRecordStatus ⟨sheets, audit⟩ user sheetName rowIndex newStatus
          comment now).1 = ⟨sheets, audit⟩)
    ∧ (user.role = "Admin" →
      (updateRecordStatus sheets user sheetName rowIndex newStatus comment now).isOk
        = true) := by
  constructor
  · intro hrole hmail
    have herr : updateRecordStatus sheets user sheetName rowIndex newStatus comment now =
        .error "No tiene permiso para modificar un registro que no le ha sido asignado." := by
      unfold updateRecordStatus
      simp +decide [hrole, hstat, hcomm, hname, hrow, hfind, hmail]
    refine ⟨herr, ?_⟩
    unfold runUpdateRecordStatus
    rw [herr]
  · intro hadmin
    unfold updateRecordStatus
    simp +decide [hadmin, hstat, hcomm, hname, hrow, hfind, Except.isOk,
      Except.toBool]

end Conciliapp

namespace Conciliapp

/-- C7: every successful `updateRecordStatus` produces, in program order,
exactly one audit append — capturing the previous status, the new status and
the comment — and it precedes the status-cell write; no audit op follows. -/
theorem updateRecordStatus_audit_precedes_status
    (sheets : List Sheet) (user : UserT) (sheetName : String) (rowIndex : Nat)
    (newStatus : String) (comment : Option String) (now : Int)
    (ops : List WriteOp) (msg : String)
    (h : updateRecordStatus sheets user sheetName rowIndex newStatus comment now
      = .ok (ops, msg)) :
    ∃ sheet rest,
      findSheet sheets sheetName = some sheet ∧
      ops = WriteOp.auditAppend
          [Cell.date now, Cell.str user.email,
           getSheetCell sheet rowIndex idRegistroColNum,
           (if (getSheetCell sheet rowIndex statusColNum).truthy then
              getSheetCell sheet rowIndex statusColNum else Cell.str "Pendiente"),
           Cell.str newStatus, Cell.str (comment.getD "")] ::
        WriteOp.setCell sheetName rowIndex statusColNum (Cell.str newStatus) ::
        rest ∧
      (∀ op ∈ rest, op.isAudit = false) ∧
      ops.countP WriteOp.isAudit = 1 := by
  unfold updateRecordStatus at h
  split at h
  · simp at h
  split at h
  · simp at h
  split at h
  · simp at h
  split at h
  · simp at h
  split at h
  · simp at h
  rename_i sheet hfind
  split at h
  · simp at h
  split at h
  · simp at h
  simp only [Except.ok.injEq, Prod.mk.injEq] at h
  obtain ⟨hops, -⟩ := h
  subst hops
  by_cases hp : newStatus = "Pendiente"
  · refine ⟨sheet, [WriteOp.setCell sheetName rowIndex commentColNum (Cell.str "")],
      hfind, by simp [hp], ?_, ?_⟩
    · intro op hop
      simp at hop
      subst hop
      rfl
    · simp [hp, WriteOp.isAudit]
  · cases comment with
    | none =>
      refine ⟨sheet, [], hfind, by simp [hp], by simp, ?_⟩
      simp [hp, WriteOp.isAudit]
    | some c =>
      by_cases hc : c = ""
      · refine ⟨sheet, [], hfind, by simp [hp, hc], by simp, ?_⟩
        simp [hp, hc, WriteOp.isAudit]
      · refine ⟨sheet, [WriteOp.setCell sheetName rowIndex commentColNum (Cell.str c)],
          hfind, by simp [hp, hc], ?_, ?_⟩
        · intro op hop
          simp at hop
          subst hop
          rfl
        · simp [hp, hc, WriteOp.isAudit]

end Conciliapp

namespace Conciliapp

/-- A sample data row: blank status, stored comment `old`, assigned analyst
`ana@x.com`, branch `Caracas`, record id `id9`. -/
def sampleRow : List Cell :=
  List.replicate 15 (Cell.str "") ++
  [Cell.str "old", Cell.str "ana@x.com", Cell.str "Caracas", Cell.str "id9"]

/-- A one-partition spreadsheet holding `sampleRow`. -/
def sampleSheets : List Sheet := [⟨"REG_2025_mar", [sampleRow]⟩]

theorem updateRecordStatus_validation_witness :
    (∃ e, updateRecordStatus sampleSheets ⟨"admin@x.com", "Admin"⟩ "REG_2025_mar" 2
      "Loco" none 0 = .error e)
    ∧ (∃ e, updateRecordStatus sampleSheets ⟨"admin@x.com", "Admin"⟩ "REG_2025_mar" 2
      "Rechazado" none 0 = .error e)
    ∧ (updateRecordStatus sampleSheets ⟨"admin@x.com", "Admin"⟩ "REG_2025_mar" 2
      "Rechazado" (some "motivo") 0).isOk = true
    ∧ readCellByName
        (runUpdateRecordStatus ⟨sampleSheets, []⟩ ⟨"admin@x.com", "Admin"⟩
          "REG_2025_mar" 2 "Pendiente" (some "x") 0).1.sheets
        "REG_2025_mar" 2 commentColNum = Cell.str "" := by
  refine ⟨?_, ?_, ?_, ?_⟩
  · exact (updateRecordStatus_validation sampleSheets [] ⟨"admin@x.com", "Admin"⟩
      "REG_2025_mar" 2 "Loco" none 0).1 (by decide)
  · exact (updateRecordStatus_validation sampleSheets [] ⟨"admin@x.com", "Admin"⟩
      "REG_2025_mar" 2 "Rechazado" none 0).2.1 rfl rfl
  · exact (updateRecordStatus_validation sampleSheets [] ⟨"admin@x.com", "Admin"⟩
      "REG_2025_mar" 2 "Rechazado" (some "motivo") 0).2.2.1
      ⟨"REG_2025_mar", [sampleRow]⟩ rfl rfl (by decide) (by decide) (by decide) rfl
  · exact (updateRecordStatus_validation sampleSheets [] ⟨"admin@x.com", "Admin"⟩
      "REG_2025_mar" 2 "Pendiente" (some "x") 0).2.2.2
      ⟨"REG_2025_mar", [sampleRow]⟩ rfl (by decide) (by decide) rfl (by decide)

theorem updateRecordStatus_ownership_witness :
    (updateRecordStatus sampleSheets ⟨"bob@x.com", "Analista"⟩ "REG_2025_mar" 2
        "Procesado" none 0 =
      .error "No tiene permiso para modificar un registro que no le ha sido asignado.")
    ∧ (runUpdateRecordStatus ⟨sampleSheets, []⟩ ⟨"bob@x.com", "Analista"⟩
        "REG_2025_mar" 2 "Procesado" none 0).1 = ⟨sampleSheets, []⟩
    ∧ (updateRecordStatus sampleSheets ⟨"admin@x.com", "Admin"⟩ "REG_2025_mar" 2
        "Procesado" none 0).isOk = true := by
  have h1 := (updateRecordStatus_ownership sampleSheets [] ⟨"bob@x.com", "Analista"⟩
    "REG_2025_mar" 2 "Procesado" none 0 ⟨"REG_2025_mar", [sampleRow]⟩
    (by decide) (by decide) (by decide) (by decide) rfl).1 rfl (by decide)
  have h2 := (updateRecordStatus_ownership sampleSheets [] ⟨"admin@x.com", "Admin"⟩
    "REG_2025_mar" 2 "Procesado" none 0 ⟨"REG_2025_mar", [sampleRow]⟩
    (by decide) (by decide) (by decide) (by decide) rfl).2 rfl
  exact ⟨h1.1, h1.2, h2⟩

theorem updateRecordStatus_audit_precedes_status_witness :
    ∃ sheet rest,
      findSheet sampleSheets "REG_2025_mar" = some sheet ∧
      [WriteOp.auditAppend
          [Cell.date 0, Cell.str "admin@x.com", Cell.str "id9",
           Cell.str "Pendiente", Cell.str "Procesado", Cell.str "nota"],
        WriteOp.setCell "REG_2025_mar" 2 15 (Cell.str "Procesado"),
        WriteOp.setCell "REG_2025_mar" 2 16 (Cell.str "nota")] =
        WriteOp.auditAppend
          [Cell.date 0, Cell.str "admin@x.com",
           getSheetCell sheet 2 idRegistroColNum,
           (if (getSheetCell sheet 2 statusColNum).truthy then
              getSheetCell sheet 2 statusColNum else Cell.str "Pendiente"),
           Cell.str "Procesado", Cell.str ((some "nota").getD "")] ::
        WriteOp.setCell "REG_2025_mar" 2 statusColNum (Cell.str "Procesado") ::
        rest ∧
      (∀ op ∈ rest, op.isAudit = false) ∧
      ([WriteOp.auditAppend
          [Cell.date 0, Cell.str "admin@x.com", Cell.str "id9",
           Cell.str "Pendiente", Cell.str "Procesado", Cell.str "nota"],
        WriteOp.setCell "REG_2025_mar" 2 15 (Cell.str "Procesado"),
        WriteOp.setCell "REG_2025_mar" 2 16 (Cell.str "nota")] : List WriteOp).countP
        WriteOp.isAudit = 1 :=
  updateRecordStatus_audit_precedes_status sampleSheets ⟨"admin@x.com", "Admin"⟩
    "REG_2025_mar" 2 "Procesado" (some "nota") 0 _ _ rfl

end Conciliapp

namespace Conciliapp

/-! ### Assignment engine (`assignPendingRecords`) -/

/-- A pending record collected by the scan phase. -/
structure PendingRecord where
  sheetName : String
  rowIndex : Nat
  sucursal : String
  sellerName : String
  sellerCode : Option String
  deriving DecidableEq, Repr

/-- A record is pending when both `AnalistaAsignado` and `EstadoAnalista`
are falsy (`!row[analystColIndex] && !row[statusColIndex]`). -/
def rowIsPending (row : List Cell) : Bool :=
  !(readRowCell row analystColIndex).truthy &&
  !(readRowCell row statusColIndex).truthy

/-- The seller name → code `Map` built from the roster (later entries
overwrite earlier ones). -/
def sellerNameToCode (allSellers : List Seller) (name : String) : Option String :=
  jsMapGet (allSellers.map (fun s => (s.nombre, s.codigo))) name

/-- Scan one partition sheet for pending records (row index is the 1-based
sheet row, data starting at row 2). -/
def scanSheet (allSellers : List Seller) (sheet : Sheet) : List PendingRecord :=
  sheet.rows.enum.filterMap (fun p =>
    if rowIsPending p.2 then
      let sellerName := jsTrim (readRowCell p.2 vendedorColIndex).toStrOrEmpty
      some { sheetName := sheet.name, rowIndex := p.1 + 2,
             sucursal := jsTrim (readRowCell p.2 sucursalColIndex).toStrOrEmpty,
             sellerName := sellerName,
             sellerCode := sellerNameToCode allSellers sellerName }
    else none)

/-- Scan every sheet whose name matches the partition pattern and which has
at least one data row.  The partition-name regex is abstracted as the
predicate `isPartition`. -/
def scanPending (isPartition : String → Bool) (sheets : List Sheet)
    (allSellers : List Seller) : List PendingRecord :=
  (sheets.map (fun sheet =>
    if isPartition sheet.name ∧ sheet.rows ≠ [] then scanSheet allSellers sheet
    else [])).flatten

/-- The override `Map` entries: trimmed seller code → normalized analyst
email, from the `AsignacionOverrides` rows. -/
def overrideEntries (overrideRows : List (List Cell)) : List (String × String) :=
  overrideRows.map (fun row =>
    (jsTrim (readRowCell row 0).toStr, normalizeEmailCell (readRowCell row 1)))

/-- `record.sellerCode && overrideMap.has(record.sellerCode)`. -/
def hasOverride (ov : List (String × String)) (r : PendingRecord) : Bool :=
  match r.sellerCode with
  | some code => code ≠ "" && (jsMapGet ov code).isSome
  | none => false

/-- One analyst-assignment update: sheet, 1-based row, analyst email. -/
structure Assignment where
  sheetName : String
  rowIndex : Nat
  analyst : String
  deriving DecidableEq, Repr

/-- The Stage A decision for one record: the designated analyst's direct
assignment when the record's seller code has an active override. -/
def directAssignFn (ov : List (String × String)) (r : PendingRecord) :
    Option Assignment :=
  match r.sellerCode with
  | some code =>
    if code ≠ "" then
      (jsMapGet ov code).map (fun a => ⟨r.sheetName, r.rowIndex, a⟩)
    else none
  | none => none

/-- Stage A: records whose seller code has an active override are assigned
directly to the designated analyst. -/
def directAssignments (ov : List (String × String))
    (pending : List PendingRecord) : List Assignment :=
  pending.filterMap (directAssignFn ov)

/-- The records left for Stage B fair-share distribution. -/
def recordsForFairShare (ov : List (String × String))
    (pending : List PendingRecord) : List PendingRecord :=
  pending.filter (fun r => !hasOverride ov r)

/-- `record.sucursal || 'SIN_SUCURSAL'`. -/
def branchOf (r : PendingRecord) : String :=
  if r.sucursal = "" then "SIN_SUCURSAL" else r.sucursal

/-- The branch keys of the `recordsByBranch` object, in first-insertion
order. -/
def branchKeys (records : List PendingRecord) : List String :=
  jsSetList (records.map branchOf)

/-- Analysts whose branch list contains the `TODAS` sentinel. -/
def analystsWithAllAccess (analystData : List (String × List String)) :
    List String :=
  (analystData.filter (fun p => p.2.contains "TODAS")).map Prod.fst

/-- `analystsByBranch[branch]`: analysts explicitly scoped to the branch, in
roster iteration order (with multiplicity, as the source pushes one entry
per matching sucursal). -/
def analystsForBranch (analystData : List (String × List String))
    (branch : String) : List String :=
  (analystData.map (fun p =>
    (p.2.filter (fun suc => suc ≠ "TODAS" && suc = branch)).map
      (fun _ => p.1))).flatten

/-- `[...new Set([...specificAnalysts, ...analystsWithAllAccess])]`. -/
def qualifiedAnalysts (analystData : List (String × List String))
    (branch : String) : List String :=
  jsSetList (analystsForBranch analystData branch ++
    analystsWithAllAccess analystData)

/-- The script-cache key holding a branch's round-robin cursor. -/
def cursorKey (branch : String) : String := "last_analyst_index_" ++ branch

/-- The per-branch assignment loop: `nextIndex = (last + 1) % count`,
assign `qualified[nextIndex]`, advance the cursor. -/
def assignBranch (qualified : List String) :
    Int → List PendingRecord → List Assignment × Int
  | last, [] => ([], last)
  | last, r :: rest =>
    let nextIdx := (last + 1).tmod qualified.length
    let assigned := qualified.getD nextIdx.toNat ""
    let step := assignBranch qualified nextIdx rest
    (⟨r.sheetName, r.rowIndex, assigned⟩ :: step.1, step.2)

/-- One Stage B branch iteration: skip when no qualified analyst exists,
otherwise read the branch cursor from the evolving script cache (default −1
when absent/expired), run the assignment loop and persist the new cursor. -/
def stageBStep (analystData : List (String × List String))
    (fairShare : List PendingRecord)
    (acc : List Assignment × List (String × Int)) (branch : String) :
    List Assignment × List (String × Int) :=
  let qualified := qualifiedAnalysts analystData branch
  if qualified.isEmpty then acc
  else
    let lastAssignedIndex := (jsMapGet acc.2 (cursorKey branch)).getD (-1)
    let run := assignBranch qualified lastAssignedIndex
      (fairShare.filter (fun r => branchOf r = branch))
    (acc.1 ++ run.1, jsMapPut acc.2 (cursorKey branch) run.2)

/-- Stage B: per-branch fair share over the branch keys. -/
def stageB (analystData : List (String × List String))
    (cache : List (String × Int)) (fairShare : List PendingRecord) :
    List Assignment × List (String × Int) :=
  (branchKeys fairShare).foldl (stageBStep analystData fairShare) ([], cache)

/-- All updates of one pass: Stage A direct assignments first, then Stage B
fair-share assignments, after the two early returns (no available analysts,
or nothing pending). -/
def passUpdates (isPartition : String → Bool) (sheets : List Sheet)
    (analystData : List (String × List String)) (overrideRows : List (List Cell))
    (allSellers : List Seller) (cache : List (String × Int)) : List Assignment :=
  if analystData.isEmpty then []
  else
    let pending := scanPending isPartition sheets allSellers
    if pending.isEmpty then []
    else
      let ov := overrideEntries overrideRows
      directAssignments ov pending ++
        (stageB analystData cache (recordsForFairShare ov pending)).1

/-- The script cache after one pass. -/
def passCache (isPartition : String → Bool) (sheets : List Sheet)
    (analystData : List (String × List String)) (overrideRows : List (List Cell))
    (allSellers : List Seller) (cache : List (String × Int)) :
    List (String × Int) :=
  if analystData.isEmpty then cache
  else
    let pending := scanPending isPartition sheets allSellers
    if pending.isEmpty then cache
    else
      (stageB analystData cache
        (recordsForFairShare (overrideEntries overrideRows) pending)).2

/-- The write-back order: updates grouped per sheet in first-touch order,
preserving the per-sheet push order (the `updates` `Map` iteration). -/
def groupedUpdates (updates : List Assignment) : List Assignment :=
  ((jsSetList (updates.map Assignment.sheetName)).map
    (fun name => updates.filter (fun u => u.sheetName = name))).flatten

/-- Apply one update: `sheet.getRange(rowIndex, analystColIndex + 1)
.setValue(analyst)`. -/
def applyAssignment (sheets : List Sheet) (u : Assignment) : List Sheet :=
  setSheetCell sheets u.sheetName u.rowIndex (analystColIndex + 1)
    (Cell.str u.analyst)

/-- The result of one assignment pass: mutated sheets and script cache. -/
structure PassResult where
  sheets : List Sheet
  cache : List (String × Int)
  deriving DecidableEq, Repr

/-- `assignPendingRecords`: scan, Stage A overrides, Stage B fair share,
batched write-back, cursor persistence.  The lock, the partition-name regex,
the roster fetches and the logging are abstracted: analyst data, override
rows and the seller roster are the pass's configured inputs. -/
def assignPendingRecords (isPartition : String → Bool) (sheets : List Sheet)
    (analystData : List (String × List String)) (overrideRows : List (List Cell))
    (allSellers : List Seller) (cache : List (String × Int)) : PassResult :=
  ⟨(groupedUpdates (passUpdates isPartition sheets analystData overrideRows
      allSellers cache)).foldl applyAssignment sheets,
   passCache isPartition sheets analystData overrideRows allSellers cache⟩

end Conciliapp

namespace Conciliapp

/-! ### Round-robin arithmetic and Stage B lemmas -/

theorem tmod_add_tmod_left (a m n : Int) (ha : 0 ≤ a) (hm : 0 ≤ m)
    (hn : 0 < n) : (a.tmod n + m).tmod n = (a + m).tmod n := by
  have h2 : 0 ≤ a % n := Int.emod_nonneg a (by omega)
  rw [Int.tmod_eq_emod ha (by omega), Int.tmod_eq_emod (by omega) (by omega),
    Int.tmod_eq_emod (by omega) (by omega), Int.emod_add_emod]

theorem assignBranch_locators (qualified : List String) :
    ∀ (records : List PendingRecord) (c : Int),
      (assignBranch qualified c records).1.map (fun a => (a.sheetName, a.rowIndex)) =
        records.map (fun r => (r.sheetName, r.rowIndex))
  | [], _ => by simp [assignBranch]
  | r :: rest, c => by
    simp only [assignBranch, List.map_cons]
    rw [assignBranch_locators qualified rest]

theorem assignBranch_cyclic (qualified : List String) (hq : qualified ≠ []) :
    ∀ (records : List PendingRecord) (c : Int), -1 ≤ c →
      (assignBranch qualified c records).1 =
        records.enum.map (fun p =>
          Assignment.mk p.2.sheetName p.2.rowIndex
            (qualified.getD ((c + 1 + p.1).tmod qualified.length).toNat ""))
      ∧ (assignBranch qualified c records).2 =
        (if records.length = 0 then c
         else (c + records.length).tmod qualified.length) := by
  intro records
  induction records with
  | nil => intro c hc; simp [assignBranch]
  | cons r rest ih =>
    intro c hc
    have hn : 0 < (qualified.length : Int) := by
      exact_mod_cast List.length_pos.mpr hq
    have hc1 : (0 : Int) ≤ c + 1 := by omega
    have hnn : 0 ≤ (c + 1).tmod qualified.length := Int.tmod_nonneg _ hc1
    have ihs := ih ((c + 1).tmod qualified.length) (by omega)
    constructor
    · simp only [assignBranch]
      rw [ihs.1, List.enum_cons']
      simp only [List.map_cons, List.map_map]
      refine congrArg₂ _ (by simp) ?_
      apply List.map_congr_left
      intro p hp
      obtain ⟨i, rec⟩ := p
      show Assignment.mk rec.sheetName rec.rowIndex
          (qualified.getD
            (((c + 1).tmod qualified.length + 1 + (i : Int)).tmod
              qualified.length).toNat "") =
        Assignment.mk rec.sheetName rec.rowIndex
          (qualified.getD
            ((c + 1 + ((i : Int) + 1)).tmod qualified.length).toNat "")
      congr 2
      rw [show (c + 1).tmod (qualified.length : Int) + 1 + (i : Int) =
        (c + 1).tmod qualified.length + (1 + i) from by ring]
      rw [tmod_add_tmod_left _ _ _ hc1 (by omega) hn]
      ring_nf
    · simp only [assignBranch]
      rw [ihs.2]
      by_cases hr : rest.length = 0
      · rw [if_pos hr, if_neg (by simp)]
        have h1 : (((r :: rest).length : Nat) : Int) = 1 := by simp [hr]
        rw [h1]
      · rw [if_neg hr, if_neg (by simp)]
        rw [tmod_add_tmod_left _ _ _ hc1 (by omega) hn]
        congr 1
        rw [List.length_cons]
        push_cast
        ring

theorem jsMapGet_put {β : Type} (l : List (String × β)) (k k' : String) (v : β) :
    jsMapGet (jsMapPut l k v) k' = if k' = k then some v else jsMapGet l k' := by
  unfold jsMapGet jsMapPut
  rw [List.reverse_append]
  by_cases h : k' = k
  · simp [List.lookup, h]
  · rw [if_neg h]
    simp only [List.reverse_cons, List.reverse_nil, List.nil_append,
      List.singleton_append, List.lookup]
    rw [show (k' == k) = false from beq_eq_false_iff_ne.mpr h]
    simp

theorem jsMapGet_mem {β : Type} {l : List (String × β)} {k : String} {v : β}
    (h : jsMapGet l k = some v) : (k, v) ∈ l := by
  unfold jsMapGet at h
  obtain ⟨l₁, l₂, he, -⟩ := List.lookup_eq_some_iff.mp h
  have : (k, v) ∈ l.reverse := by rw [he]; simp
  simpa using this

theorem cursorKey_injective {b₁ b₂ : String} (h : cursorKey b₁ = cursorKey b₂) :
    b₁ = b₂ := by
  have hd := congrArg String.data h
  simp only [cursorKey, String.data_append] at hd
  have h2 := List.append_cancel_left hd
  cases b₁
  cases b₂
  exact congrArg String.mk h2

theorem jsSetList_nodup {α : Type} [DecidableEq α] (l : List α) :
    (jsSetList l).Nodup := by
  simpa [jsSetList, List.nodup_reverse] using List.nodup_dedup l.reverse

theorem jsSetList_mem {α : Type} [DecidableEq α] {a : α} {l : List α} :
    a ∈ jsSetList l ↔ a ∈ l := by
  simp [jsSetList]

end Conciliapp

namespace Conciliapp

/-- The assignments one branch contributes to a pass, read against a fixed
initial cache (the per-branch cursor keys are pairwise distinct, so the
evolving script cache and the initial cache agree on each branch's key). -/
def branchAssignments (analystData : List (String × List String))
    (cache : List (String × Int)) (fairShare : List PendingRecord)
    (branch : String) : List Assignment :=
  if (qualifiedAnalysts analystData branch).isEmpty then []
  else
    (assignBranch (qualifiedAnalysts analystData branch)
      ((jsMapGet cache (cursorKey branch)).getD (-1))
      (fairShare.filter (fun r => branchOf r = branch))).1

theorem stageB_foldl_spec (analystData : List (String × List String))
    (cache : List (String × Int)) (fairShare : List PendingRecord) :
    ∀ (bs : List String) (acc1 : List Assignment) (cch : List (String × Int)),
      bs.Nodup →
      (∀ b ∈ bs, jsMapGet cch (cursorKey b) = jsMapGet cache (cursorKey b)) →
      (bs.foldl (stageBStep analystData fairShare) (acc1, cch)).1 =
        acc1 ++ (bs.map (branchAssignments analystData cache fairShare)).flatten
      ∧ (∀ k, (∀ b ∈ bs, cursorKey b ≠ k) →
          jsMapGet (bs.foldl (stageBStep analystData fairShare) (acc1, cch)).2 k =
            jsMapGet cch k)
      ∧ (∀ b ∈ bs, ¬(qualifiedAnalysts analystData b).isEmpty = true →
          jsMapGet (bs.foldl (stageBStep analystData fairShare) (acc1, cch)).2
              (cursorKey b) =
            some (assignBranch (qualifiedAnalysts analystData b)
              ((jsMapGet cache (cursorKey b)).getD (-1))
              (fairShare.filter (fun r => branchOf r = b))).2) := by
  intro bs
  induction bs with
  | nil =>
    intro acc1 cch _ _
    exact ⟨by simp, fun k _ => rfl, by simp⟩
  | cons b₀ bs ih =>
    intro acc1 cch hnodup hagree
    have hnd := List.nodup_cons.mp hnodup
    rw [List.foldl_cons]
    by_cases hq : (qualifiedAnalysts analystData b₀).isEmpty
    · have hstep : stageBStep analystData fairShare (acc1, cch) b₀ = (acc1, cch) := by
        simp [stageBStep, hq]
      rw [hstep]
      have ihs := ih acc1 cch hnd.2
        (fun b hb => hagree b (List.mem_cons_of_mem _ hb))
      refine ⟨?_, ?_, ?_⟩
      · rw [ihs.1]
        simp [branchAssignments, hq]
      · intro k hk
        exact ihs.2.1 k (fun b hb => hk b (List.mem_cons_of_mem _ hb))
      · intro b hb hbq
        rcases List.mem_cons.mp hb with rfl | hb'
        · exact absurd hq (by simpa using hbq)
        · exact ihs.2.2 b hb' hbq
    · have hc0 : jsMapGet cch (cursorKey b₀) = jsMapGet cache (cursorKey b₀) :=
        hagree b₀ (List.mem_cons_self _ _)
      have hstep : stageBStep analystData fairShare (acc1, cch) b₀ =
          (acc1 ++ (assignBranch (qualifiedAnalysts analystData b₀)
              ((jsMapGet cache (cursorKey b₀)).getD (-1))
              (fairShare.filter (fun r => branchOf r = b₀))).1,
           jsMapPut cch (cursorKey b₀)
            (assignBranch (qualifiedAnalysts analystData b₀)
              ((jsMapGet cache (cursorKey b₀)).getD (-1))
              (fairShare.filter (fun r => branchOf r = b₀))).2) := by
        simp [stageBStep, hq, hc0]
      rw [hstep]
      have hagree' : ∀ b ∈ bs,
          jsMapGet (jsMapPut cch (cursorKey b₀)
            (assignBranch (qualifiedAnalysts analystData b₀)
              ((jsMapGet cache (cursorKey b₀)).getD (-1))
              (fairShare.filter (fun r => branchOf r = b₀))).2) (cursorKey b) =
            jsMapGet cache (cursorKey b) := by
        intro b hb
        rw [jsMapGet_put,
          if_neg (fun e => hnd.1 (by rw [← cursorKey_injective e]; exact hb))]
        exact hagree b (List.mem_cons_of_mem _ hb)
      have ihs := ih
        (acc1 ++ (assignBranch (qualifiedAnalysts analystData b₀)
          ((jsMapGet cache (cursorKey b₀)).getD (-1))
          (fairShare.filter (fun r => branchOf r = b₀))).1)
        (jsMapPut cch (cursorKey b₀)
          (assignBranch (qualifiedAnalysts analystData b₀)
            ((jsMapGet cache (cursorKey b₀)).getD (-1))
            (fairShare.filter (fun r => branchOf r = b₀))).2)
        hnd.2 hagree'
      refine ⟨?_, ?_, ?_⟩
      · rw [ihs.1]
        simp [branchAssignments, hq, List.append_assoc]
      · intro k hk
        rw [ihs.2.1 k (fun b hb => hk b (List.mem_cons_of_mem _ hb)),
          jsMapGet_put, if_neg (fun e => hk b₀ (List.mem_cons_self _ _) e.symm)]
      · intro b hb hbq
        rcases List.mem_cons.mp hb with rfl | hb'
        · rw [ihs.2.1 (cursorKey b)
            (fun b' hb' e => hnd.1 (by rw [← cursorKey_injective e]; exact hb')),
            jsMapGet_put, if_pos rfl]
        · exact ihs.2.2 b hb' hbq

theorem stageB_branch_spec (analystData : List (String × List String))
    (cache : List (String × Int)) (fairShare : List PendingRecord) :
    (stageB analystData cache fairShare).1 =
      ((branchKeys fairShare).map
        (branchAssignments analystData cache fairShare)).flatten
    ∧ (∀ b ∈ branchKeys fairShare,
        ¬(qualifiedAnalysts analystData b).isEmpty = true →
        jsMapGet (stageB analystData cache fairShare).2 (cursorKey b) =
          some (assignBranch (qualifiedAnalysts analystData b)
            ((jsMapGet cache (cursorKey b)).getD (-1))
            (fairShare.filter (fun r => branchOf r = b))).2) := by
  have h := stageB_foldl_spec analystData cache fairShare (branchKeys fairShare)
    [] cache (jsSetList_nodup _) (fun _ _ => rfl)
  exact ⟨by simpa using h.1, h.2.2⟩

end Conciliapp

namespace Conciliapp

theorem cursor_ge_neg_one (cache : List (String × Int))
    (hcache : ∀ p ∈ cache, 0 ≤ p.2) (k : String) :
    -1 ≤ (jsMapGet cache k).getD (-1) := by
  cases h : jsMapGet cache k with
  | none => simp
  | some v =>
    have := hcache (k, v) (jsMapGet_mem h)
    simp only [Option.getD_some]
    omega

theorem branch_records_ne_nil {fs : List PendingRecord} {b : String}
    (hb : b ∈ branchKeys fs) :
    fs.filter (fun r => branchOf r = b) ≠ [] := by
  have hb' : b ∈ fs.map branchOf := jsSetList_mem.mp hb
  obtain ⟨r, hr, he⟩ := List.mem_map.mp hb'
  exact List.ne_nil_of_mem (List.mem_filter.mpr ⟨hr, by simp [he]⟩)

/-- The 4-pending-record, 2-analyst `Caracas` fixture used by the fair
round-robin scenario: blank analyst and status cells, branch `Caracas`. -/
def pendingRowCaracas : List Cell :=
  List.replicate 17 (Cell.str "") ++ [Cell.str "Caracas", Cell.str "id"]

/-- One partition with four pending records in branch `Caracas`. -/
def c1Sheets : List Sheet :=
  [⟨"REG_2025_mar",
    [pendingRowCaracas, pendingRowCaracas, pendingRowCaracas, pendingRowCaracas]⟩]

/-- Two analysts, both scoped to branch `Caracas`. -/
def c1Analysts : List (String × List String) :=
  [("a@x.com", ["Caracas"]), ("b@x.com", ["Caracas"])]

/-- The partition-name test for the fixture. -/
def c1Part : String → Bool := fun n => n == "REG_2025_mar"

/-- C1: in Stage B every branch with a non-empty eligible analyst set is
assigned cyclically — record `i` of the branch goes to
`eligible[(cursor + 1 + i) mod eligibleCount]` with the cursor read from the
script cache (default −1 when absent/expired) — and the advanced cursor is
persisted after the pass.  In particular, for a branch with exactly two
eligible analysts and no overrides, four consecutive pending records are
assigned alternately, two to each, starting after the last cursor position. -/
theorem stageB_fair_round_robin
    (analystData : List (String × List String)) (cache : List (String × Int))
    (fairShare : List PendingRecord)
    (hcache : ∀ p ∈ cache, 0 ≤ p.2) :
    ((stageB analystData cache fairShare).1 =
      ((branchKeys fairShare).map (fun branch =>
        if (qualifiedAnalysts analystData branch).isEmpty then []
        else
          (fairShare.filter (fun r => branchOf r = branch)).enum.map (fun p =>
            Assignment.mk p.2.sheetName p.2.rowIndex
              ((qualifiedAnalysts analystData branch).getD
                ((((jsMapGet cache (cursorKey branch)).getD (-1)) + 1 + p.1).tmod
                  (qualifiedAnalysts analystData branch).length).toNat
                "")))).flatten)
    ∧ (∀ branch ∈ branchKeys fairShare,
        ¬(qualifiedAnalysts analystData branch).isEmpty = true →
        jsMapGet (stageB analystData cache fairShare).2 (cursorKey branch) =
          some ((((jsMapGet cache (cursorKey branch)).getD (-1)) +
            (fairShare.filter (fun r => branchOf r = branch)).length).tmod
              (qualifiedAnalysts analystData branch).length))
    ∧ passUpdates c1Part c1Sheets c1Analysts [] [] [] =
        [⟨"REG_2025_mar", 2, "a@x.com"⟩, ⟨"REG_2025_mar", 3, "b@x.com"⟩,
         ⟨"REG_2025_mar", 4, "a@x.com"⟩, ⟨"REG_2025_mar", 5, "b@x.com"⟩]
    ∧ ((passUpdates c1Part c1Sheets c1Analysts [] [] []).filter
        (fun u => u.analyst = "a@x.com")).length = 2
    ∧ ((passUpdates c1Part c1Sheets c1Analysts [] [] []).filter
        (fun u => u.analyst = "b@x.com")).length = 2
    ∧ passCache c1Part c1Sheets c1Analysts [] [] [] =
        [("last_analyst_index_Caracas", 1)] := by
  have hspec := stageB_branch_spec analystData cache fairShare
  refine ⟨?_, ?_, rfl, rfl, rfl, rfl⟩
  · rw [hspec.1]
    congr 1
    apply List.map_congr_left
    intro b hb
    unfold branchAssignments
    by_cases hq : (qualifiedAnalysts analystData b).isEmpty
    · rw [if_pos hq, if_pos hq]
    · rw [if_neg hq, if_neg hq]
      have hqne : qualifiedAnalysts analystData b ≠ [] := by
        simpa [List.isEmpty_iff] using hq
      exact (assignBranch_cyclic _ hqne _ _
        (cursor_ge_neg_one cache hcache _)).1
  · intro b hb hq
    rw [hspec.2 b hb hq]
    have hqne : qualifiedAnalysts analystData b ≠ [] := by
      simpa [List.isEmpty_iff] using hq
    rw [(assignBranch_cyclic _ hqne _ _ (cursor_ge_neg_one cache hcache _)).2]
    rw [if_neg (by simpa [List.length_eq_zero] using branch_records_ne_nil hb)]

end Conciliapp

namespace Conciliapp

theorem stageB_fair_round_robin_witness :
    passUpdates c1Part c1Sheets c1Analysts [] [] [] =
        [⟨"REG_2025_mar", 2, "a@x.com"⟩, ⟨"REG_2025_mar", 3, "b@x.com"⟩,
         ⟨"REG_2025_mar", 4, "a@x.com"⟩, ⟨"REG_2025_mar", 5, "b@x.com"⟩]
    ∧ passCache c1Part c1Sheets c1Analysts [] [] [] =
        [("last_analyst_index_Caracas", 1)] := by
  have h := stageB_fair_round_robin c1Analysts []
    (recordsForFairShare [] (scanPending c1Part c1Sheets [])) (by simp)
  exact ⟨h.2.2.1, h.2.2.2.2.2⟩

/-- C2: a pending record whose vendor's canonical code has an active
override rule is assigned directly to the designated analyst — for every
round-robin cursor state — and is excluded from Stage B fair-share
distribution. -/
theorem override_precedence
    (isPartition : String → Bool) (sheets : List Sheet)
    (analystData : List (String × List String)) (overrideRows : List (List Cell))
    (allSellers : List Seller) (cache : List (String × Int))
    (r : PendingRecord) (code R : String)
    (hanalysts : analystData ≠ [])
    (hr : r ∈ scanPending isPartition sheets allSellers)
    (hcode : r.sellerCode = some code) (hne : code ≠ "")
    (hov : jsMapGet (overrideEntries overrideRows) code = some R) :
    (Assignment.mk r.sheetName r.rowIndex R ∈
      passUpdates isPartition sheets analystData overrideRows allSellers cache)
    ∧ r ∉ recordsForFairShare (overrideEntries overrideRows)
        (scanPending isPartition sheets allSellers) := by
  constructor
  · simp only [passUpdates]
    rw [if_neg (by simp [List.isEmpty_iff, hanalysts]),
      if_neg (by simp [List.isEmpty_iff]; exact List.ne_nil_of_mem hr)]
    apply List.mem_append_left
    apply List.mem_filterMap.mpr
    refine ⟨r, hr, ?_⟩
    simp [directAssignFn, hcode, hne, hov]
  · intro hmem
    have hcond := List.of_mem_filter hmem
    simp [hasOverride, hcode, hne, hov] at hcond

end Conciliapp

namespace Conciliapp

/-! ### Scan-phase lemmas -/

/-- The locator of a pending record: (sheet name, 1-based row). -/
def recordLocator (r : PendingRecord) : String × Nat := (r.sheetName, r.rowIndex)

/-- The locator of an assignment update. -/
def updateLocator (u : Assignment) : String × Nat := (u.sheetName, u.rowIndex)

theorem scanSheet_sheetName (allSellers : List Seller) (sheet : Sheet) :
    ∀ r ∈ scanSheet allSellers sheet, r.sheetName = sheet.name := by
  intro r hr
  obtain ⟨p, hp, he⟩ := List.mem_filterMap.mp hr
  by_cases hpend : rowIsPending p.2
  · rw [if_pos hpend] at he
    cases he
    rfl
  · rw [if_neg hpend] at he
    cases he

theorem scanSheet_structure (allSellers : List Seller) (sheet : Sheet) :
    ∀ r ∈ scanSheet allSellers sheet, ∃ i row,
      sheet.rows[i]? = some row ∧ rowIsPending row = true ∧ r.rowIndex = i + 2 := by
  intro r hr
  obtain ⟨p, hp, he⟩ := List.mem_filterMap.mp hr
  by_cases hpend : rowIsPending p.2
  · rw [if_pos hpend] at he
    cases he
    exact ⟨p.1, p.2, List.mem_enum_iff_getElem?.mp hp, hpend, rfl⟩
  · rw [if_neg hpend] at he
    cases he

theorem scanSheet_pairwise_rowIndex (allSellers : List Seller) (sheet : Sheet) :
    (scanSheet allSellers sheet).Pairwise (fun a b => a.rowIndex ≠ b.rowIndex) := by
  have h1 : (sheet.rows.enum.map Prod.fst).Nodup := by
    rw [List.enum_map_fst]
    exact List.nodup_range _
  have h2 : sheet.rows.enum.Pairwise (fun p q => p.1 ≠ q.1) :=
    List.pairwise_map.mp h1
  apply List.Pairwise.filterMap _ _ h2
  intro a a' hne b hb b' hb'
  by_cases ha : rowIsPending a.2 <;> by_cases ha' : rowIsPending a'.2 <;>
    simp [ha, ha'] at hb hb'
  subst hb
  subst hb'
  simpa using fun e => hne (by omega)

theorem scanPending_mem {isPartition : String → Bool} {sheets : List Sheet}
    {allSellers : List Seller} {r : PendingRecord} :
    r ∈ scanPending isPartition sheets allSellers ↔
      ∃ sheet ∈ sheets, (isPartition sheet.name ∧ sheet.rows ≠ []) ∧
        r ∈ scanSheet allSellers sheet := by
  unfold scanPending
  rw [List.mem_flatten]
  constructor
  · rintro ⟨l, hl, hr⟩
    obtain ⟨sheet, hs, he⟩ := List.mem_map.mp hl
    refine ⟨sheet, hs, ?_⟩
    by_cases hc : isPartition sheet.name ∧ sheet.rows ≠ []
    · rw [if_pos hc] at he
      exact ⟨hc, he ▸ hr⟩
    · rw [if_neg hc] at he
      rw [← he] at hr
      cases hr
  · rintro ⟨sheet, hs, hc, hr⟩
    exact ⟨scanSheet allSellers sheet,
      List.mem_map.mpr ⟨sheet, hs, by rw [if_pos hc]⟩, hr⟩

theorem scan_locator_fst (isPartition : String → Bool)
    (allSellers : List Seller) (sheet : Sheet) :
    ∀ p ∈ ((if isPartition sheet.name ∧ sheet.rows ≠ [] then
        scanSheet allSellers sheet else []).map recordLocator),
      p.1 = sheet.name := by
  intro p hp
  by_cases hc : isPartition sheet.name ∧ sheet.rows ≠ []
  · rw [if_pos hc] at hp
    obtain ⟨r, hr, he⟩ := List.mem_map.mp hp
    rw [← he]
    exact scanSheet_sheetName allSellers sheet r hr
  · rw [if_neg hc] at hp
    cases hp

theorem scanPending_locators_nodup (isPartition : String → Bool)
    (sheets : List Sheet) (allSellers : List Seller)
    (hnodup : (sheets.map Sheet.name).Nodup) :
    ((scanPending isPartition sheets allSellers).map recordLocator).Nodup := by
  unfold scanPending
  rw [List.map_flatten, List.map_map, List.nodup_flatten]
  constructor
  · intro l hl
    obtain ⟨sheet, hs, he⟩ := List.mem_map.mp hl
    subst he
    simp only [Function.comp_apply]
    by_cases hc : isPartition sheet.name ∧ sheet.rows ≠ []
    · rw [if_pos hc]
      refine List.pairwise_map.mpr ?_
      exact (scanSheet_pairwise_rowIndex allSellers sheet).imp
        (fun hne e => hne (congrArg Prod.snd e))
    · rw [if_neg hc]
      exact List.nodup_nil
  · refine List.pairwise_map.mpr ?_
    have hp : sheets.Pairwise (fun s1 s2 => s1.name ≠ s2.name) :=
      List.pairwise_map.mp hnodup
    refine hp.imp ?_
    intro s1 s2 hne
    intro p hp1 hp2
    exact hne ((scan_locator_fst isPartition allSellers s1 p hp1).symm.trans
      (scan_locator_fst isPartition allSellers s2 p hp2))

end Conciliapp

namespace Conciliapp

theorem filterMap_map_eq_filter_map {α β γ : Type} (f : α → Option β)
    (p : α → Bool) (g : α → γ) (h : β → γ)
    (hf : ∀ a, (p a = true → ∃ b, f a = some b ∧ h b = g a) ∧
      (p a = false → f a = none)) :
    ∀ l : List α, (l.filterMap f).map h = (l.filter p).map g
  | [] => rfl
  | a :: l => by
    rw [List.filterMap_cons, List.filter_cons]
    cases hp : p a with
    | true =>
      obtain ⟨b, hb, he⟩ := (hf a).1 hp
      rw [hb]
      simp [filterMap_map_eq_filter_map f p g h hf l, he]
    | false =>
      rw [(hf a).2 hp]
      simp [filterMap_map_eq_filter_map f p g h hf l, hp]

theorem directAssignments_locators (ov : List (String × String))
    (pending : List PendingRecord) :
    (directAssignments ov pending).map updateLocator =
      (pending.filter (fun r => hasOverride ov r)).map recordLocator := by
  apply filterMap_map_eq_filter_map
  intro r
  constructor
  · intro h
    unfold hasOverride at h
    cases hc : r.sellerCode with
    | none => rw [hc] at h; cases h
    | some code =>
      rw [hc] at h
      simp only [Bool.and_eq_true, decide_eq_true_eq, Option.isSome_iff_exists] at h
      obtain ⟨hne, a, ha⟩ := h
      exact ⟨⟨r.sheetName, r.rowIndex, a⟩,
        by simp [directAssignFn, hc, hne, ha], rfl⟩
  · intro h
    unfold hasOverride at h
    cases hc : r.sellerCode with
    | none => simp [directAssignFn, hc]
    | some code =>
      rw [hc] at h
      simp only [Bool.and_eq_true, decide_eq_true_eq] at h
      simp only [directAssignFn, hc]
      by_cases hne : code = ""
      · simp [hne]
      · cases ha : jsMapGet ov code with
        | none => simp [hne, ha]
        | some a =>
          exfalso
          rw [ha] at h
          simp [hne] at h

theorem stageB_locators (analystData : List (String × List String))
    (cache : List (String × Int)) (fairShare : List PendingRecord) :
    ((stageB analystData cache fairShare).1).map updateLocator =
      ((branchKeys fairShare).map (fun b =>
        if (qualifiedAnalysts analystData b).isEmpty then []
        else (fairShare.filter (fun r => branchOf r = b)).map
          recordLocator)).flatten := by
  rw [(stageB_branch_spec analystData cache fairShare).1, List.map_flatten,
    List.map_map]
  congr 1
  apply List.map_congr_left
  intro b hb
  simp only [Function.comp_apply]
  unfold branchAssignments
  by_cases hq : (qualifiedAnalysts analystData b).isEmpty
  · rw [if_pos hq, if_pos hq]
    rfl
  · rw [if_neg hq, if_neg hq]
    exact assignBranch_locators _ _ _

end Conciliapp

namespace Conciliapp

/-- C4: within a single pass no record receives two assignments — the
locators of all updates are pairwise distinct — and a row whose
`AnalistaAsignado` cell is already set is never collected by the scan. -/
theorem assignment_exclusivity
    (isPartition : String → Bool) (sheets : List Sheet)
    (analystData : List (String × List String)) (overrideRows : List (List Cell))
    (allSellers : List Seller) (cache : List (String × Int))
    (hnodup : (sheets.map Sheet.name).Nodup) :
    ((passUpdates isPartition sheets analystData overrideRows allSellers
        cache).map updateLocator).Nodup
    ∧ (∀ sheet ∈ sheets, ∀ i row, sheet.rows[i]? = some row →
        (readRowCell row analystColIndex).truthy = true →
        ∀ r ∈ scanPending isPartition sheets allSellers,
          ¬(r.sheetName = sheet.name ∧ r.rowIndex = i + 2)) := by
  constructor
  · by_cases h1 : analystData.isEmpty
    · simp [passUpdates, h1]
    · by_cases h2 : (scanPending isPartition sheets allSellers).isEmpty
      · simp [passUpdates, h1, h2]
      · have hmain : passUpdates isPartition sheets analystData overrideRows
            allSellers cache =
            directAssignments (overrideEntries overrideRows)
              (scanPending isPartition sheets allSellers) ++
            (stageB analystData cache (recordsForFairShare
              (overrideEntries overrideRows)
              (scanPending isPartition sheets allSellers))).1 := by
          simp [passUpdates, h1, h2]
        rw [hmain, List.map_append]
        have hP : ((scanPending isPartition sheets allSellers).map
            recordLocator).Nodup :=
          scanPending_locators_nodup _ _ _ hnodup
        have injOn := List.inj_on_of_nodup_map hP
        have hA := directAssignments_locators (overrideEntries overrideRows)
          (scanPending isPartition sheets allSellers)
        have hB := stageB_locators analystData cache
          (recordsForFairShare (overrideEntries overrideRows)
            (scanPending isPartition sheets allSellers))
        have hfsub : List.Sublist (recordsForFairShare
            (overrideEntries overrideRows)
            (scanPending isPartition sheets allSellers))
            (scanPending isPartition sheets allSellers) := by
          unfold recordsForFairShare
          exact List.filter_sublist _
        have memB : ∀ ℓ ∈ ((stageB analystData cache (recordsForFairShare
            (overrideEntries overrideRows)
            (scanPending isPartition sheets allSellers))).1).map updateLocator,
            ∃ r ∈ scanPending isPartition sheets allSellers,
              hasOverride (overrideEntries overrideRows) r = false ∧
              recordLocator r = ℓ := by
          intro ℓ hl
          rw [hB] at hl
          obtain ⟨l, hlm, hin⟩ := List.mem_flatten.mp hl
          obtain ⟨b, hbm, he⟩ := List.mem_map.mp hlm
          subst he
          by_cases hq : (qualifiedAnalysts analystData b).isEmpty
          · rw [if_pos hq] at hin
            cases hin
          · rw [if_neg hq] at hin
            obtain ⟨r, hr, he⟩ := List.mem_map.mp hin
            have h3 := List.mem_filter.mp hr
            have h4 := List.mem_filter.mp h3.1
            refine ⟨r, h4.1, ?_, he⟩
            simpa using h4.2
        refine List.Nodup.append ?_ ?_ ?_
        · rw [hA]
          exact List.Nodup.sublist
            (List.Sublist.map _ (List.filter_sublist _)) hP
        · rw [hB]
          rw [List.nodup_flatten]
          constructor
          · intro l hl
            obtain ⟨b, hbm, he⟩ := List.mem_map.mp hl
            subst he
            by_cases hq : (qualifiedAnalysts analystData b).isEmpty
            · simp [hq]
            · rw [if_neg hq]
              exact List.Nodup.sublist
                (List.Sublist.map _ ((List.filter_sublist _).trans hfsub)) hP
          · refine List.pairwise_map.mpr ?_
            refine List.Pairwise.imp ?_ (jsSetList_nodup _)
            intro b1 b2 hne ℓ hm1 hm2
            by_cases hq1 : (qualifiedAnalysts analystData b1).isEmpty
            · rw [if_pos hq1] at hm1
              cases hm1
            · by_cases hq2 : (qualifiedAnalysts analystData b2).isEmpty
              · rw [if_pos hq2] at hm2
                cases hm2
              · rw [if_neg hq1] at hm1
                rw [if_neg hq2] at hm2
                obtain ⟨r1, hr1, he1⟩ := List.mem_map.mp hm1
                obtain ⟨r2, hr2, he2⟩ := List.mem_map.mp hm2
                have h31 := List.mem_filter.mp hr1
                have h32 := List.mem_filter.mp hr2
                have hp1 := hfsub.subset h31.1
                have hp2 := hfsub.subset h32.1
                have hreq : r1 = r2 :=
                  injOn hp1 hp2 (he1.trans he2.symm)
                apply hne
                have hb1 : branchOf r1 = b1 := by simpa using h31.2
                have hb2 : branchOf r2 = b2 := by simpa using h32.2
                rw [← hb1, hreq, hb2]
        · intro ℓ hlA hlB
          rw [hA] at hlA
          obtain ⟨r1, hr1, he1⟩ := List.mem_map.mp hlA
          have h31 := List.mem_filter.mp hr1
          obtain ⟨r2, hp2, hov2, he2⟩ := memB ℓ hlB
          have hreq : r1 = r2 := injOn h31.1 hp2 (he1.trans he2.symm)
          rw [hreq] at h31
          rw [hov2] at h31
          cases h31.2
  · rintro sheet hs i row hrow htruthy r hr ⟨hn, hi⟩
    obtain ⟨sheet', hs', ⟨hc1, hc2⟩, hrs⟩ := scanPending_mem.mp hr
    have hname : sheet'.name = sheet.name := by
      rw [← scanSheet_sheetName allSellers sheet' r hrs, hn]
    have hss : sheet' = sheet :=
      List.inj_on_of_nodup_map hnodup hs' hs hname
    subst hss
    obtain ⟨i', row', hrow', hpend, hridx⟩ := scanSheet_structure allSellers sheet' r hrs
    have hii : i' = i := by omega
    subst hii
    rw [hrow] at hrow'
    cases hrow'
    unfold rowIsPending at hpend
    rw [htruthy] at hpend
    simp at hpend

end Conciliapp

namespace Conciliapp

/-- A pending row for vendor `Juan Perez` in branch `Caracas`. -/
def c2Row : List Cell :=
  [Cell.str "", Cell.str "Juan Perez"] ++ List.replicate 15 (Cell.str "") ++
  [Cell.str "Caracas", Cell.str "id2"]

/-- One partition holding `c2Row`. -/
def c2Sheets : List Sheet := [⟨"REG_2025_mar", [c2Row]⟩]

/-- The roster resolving `Juan Perez` to canonical code `V002`. -/
def c2Sellers : List Seller := [⟨"Juan Perez", "V002", "Caracas"⟩]

/-- An override rule `V002 → C@x.com`. -/
def c2Overrides : List (List Cell) := [[Cell.str "V002", Cell.str "C@x.com"]]

theorem override_precedence_witness :
    (Assignment.mk "REG_2025_mar" 2 "c@x.com" ∈
      passUpdates c1Part c2Sheets [("a@x.com", ["Caracas"])] c2Overrides
        c2Sellers [("last_analyst_index_Caracas", 0)])
    ∧ (⟨"REG_2025_mar", 2, "Caracas", "Juan Perez", some "V002"⟩ : PendingRecord) ∉
        recordsForFairShare (overrideEntries c2Overrides)
          (scanPending c1Part c2Sheets c2Sellers) :=
  override_precedence c1Part c2Sheets [("a@x.com", ["Caracas"])] c2Overrides
    c2Sellers [("last_analyst_index_Caracas", 0)]
    ⟨"REG_2025_mar", 2, "Caracas", "Juan Perez", some "V002"⟩ "V002" "c@x.com"
    (by decide) (by decide) rfl (by decide) (by decide)

theorem assignment_exclusivity_witness :
    ((passUpdates c1Part c1Sheets c1Analysts [] [] []).map updateLocator).Nodup :=
  (assignment_exclusivity c1Part c1Sheets c1Analysts [] [] [] (by decide)).1

end Conciliapp

namespace Conciliapp

/-! ### Write-back frame lemmas -/

theorem updateFirstSheet_map {γ : Type} (g : Sheet → γ) (sheets : List Sheet)
    (name : String) (f : Sheet → Sheet) (hg : ∀ s, g (f s) = g s) :
    (updateFirstSheet sheets name f).map g = sheets.map g := by
  induction sheets with
  | nil => rfl
  | cons s rest ih =>
    unfold updateFirstSheet
    by_cases h : s.name = name
    · rw [if_pos h]
      simp [hg s]
    · rw [if_neg h]
      simp [ih]

theorem applyAssignment_map_name (shs : List Sheet) (u : Assignment) :
    (applyAssignment shs u).map Sheet.name = shs.map Sheet.name :=
  updateFirstSheet_map _ _ _ _ (fun _ => rfl)

theorem applyAssignment_map_rowCount (shs : List Sheet) (u : Assignment) :
    (applyAssignment shs u).map (fun s => s.rows.length) =
      shs.map (fun s => s.rows.length) :=
  updateFirstSheet_map _ _ _ _ (fun s => by simp)

theorem applyAssignment_frame_read (shs : List Sheet) (u : Assignment)
    (hu : 2 ≤ u.rowIndex) (name : String) (r c' : Nat) (hr : 2 ≤ r)
    (hcond : c' ≠ analystColIndex + 1 ∨
      ¬(u.sheetName = name ∧ u.rowIndex = r)) :
    readCellByName (applyAssignment shs u) name r c' =
      readCellByName shs name r c' := by
  unfold applyAssignment
  by_cases hn : u.sheetName = name
  · subst hn
    unfold readCellByName
    rw [findSheet_setSheetCell_self]
    cases hfind : findSheet shs u.sheetName with
    | none => rfl
    | some s =>
      simp only [Option.map_some']
      unfold getSheetCell
      by_cases hrow : r - 2 = u.rowIndex - 2
      · -- same data row: the claim condition forces a different column
        have hreq : r = u.rowIndex := by omega
        have hc : c' ≠ analystColIndex + 1 := by
          rcases hcond with h | h
          · exact h
          · exact absurd ⟨rfl, hreq.symm⟩ h
        rw [hrow]
        by_cases hlen : u.rowIndex - 2 < s.rows.length
        · have hset : (s.rows.set (u.rowIndex - 2)
              (setRowCell (s.rows.getD (u.rowIndex - 2) [])
                ((analystColIndex + 1) - 1) (Cell.str u.analyst)))[u.rowIndex - 2]? =
              some (setRowCell (s.rows.getD (u.rowIndex - 2) [])
                ((analystColIndex + 1) - 1) (Cell.str u.analyst)) :=
            List.getElem?_set_self (by simpa using hlen)
          rw [List.getD_eq_getElem?_getD, hset, Option.getD_some]
          refine readRowCell_setRowCell_ne _ _ _ _ ?_
          have h16 : analystColIndex = 16 := rfl
          rw [h16] at hc
          rw [h16]
          omega
        · have hle : s.rows.length ≤ u.rowIndex - 2 := Nat.le_of_not_lt hlen
          rw [List.set_eq_of_length_le hle]
      · rw [List.getD_eq_getElem?_getD,
          List.getElem?_set_ne (fun e => hrow e.symm), List.getD_eq_getElem?_getD]
  · unfold readCellByName setSheetCell
    rw [findSheet_updateFirstSheet_other shs u.sheetName name
      (fun s => ⟨s.name, s.rows.set (u.rowIndex - 2)
        (setRowCell (s.rows.getD (u.rowIndex - 2) [])
          ((analystColIndex + 1) - 1) (Cell.str u.analyst))⟩)
      (fun _ => rfl) (fun e => hn e.symm)]

theorem foldl_applyAssignment_frame :
    ∀ (ups : List Assignment) (shs : List Sheet),
      (∀ u ∈ ups, 2 ≤ u.rowIndex) →
      ((ups.foldl applyAssignment shs).map Sheet.name = shs.map Sheet.name
      ∧ (ups.foldl applyAssignment shs).map (fun s => s.rows.length) =
          shs.map (fun s => s.rows.length)
      ∧ ∀ name r c', 2 ≤ r →
          (c' ≠ analystColIndex + 1 ∨
            ∀ u ∈ ups, ¬(u.sheetName = name ∧ u.rowIndex = r)) →
          readCellByName (ups.foldl applyAssignment shs) name r c' =
            readCellByName shs name r c')
  | [], shs, _ => ⟨rfl, rfl, fun _ _ _ _ _ => rfl⟩
  | u :: ups, shs, hrows => by
    rw [List.foldl_cons]
    have hu := hrows u (List.mem_cons_self _ _)
    have ih := foldl_applyAssignment_frame ups (applyAssignment shs u)
      (fun v hv => hrows v (List.mem_cons_of_mem _ hv))
    refine ⟨ih.1.trans (applyAssignment_map_name shs u),
      ih.2.1.trans (applyAssignment_map_rowCount shs u), ?_⟩
    intro name r c' hr hcond
    have hcond' : c' ≠ analystColIndex + 1 ∨
        ∀ v ∈ ups, ¬(v.sheetName = name ∧ v.rowIndex = r) := by
      rcases hcond with h | h
      · exact Or.inl h
      · exact Or.inr (fun v hv => h v (List.mem_cons_of_mem _ hv))
    rw [ih.2.2 name r c' hr hcond']
    apply applyAssignment_frame_read shs u hu name r c' hr
    rcases hcond with h | h
    · exact Or.inl h
    · exact Or.inr (h u (List.mem_cons_self _ _))

theorem assignBranch_mem_structure (q : List String) :
    ∀ (rs : List PendingRecord) (c : Int), ∀ u ∈ (assignBranch q c rs).1,
      ∃ r ∈ rs, u.sheetName = r.sheetName ∧ u.rowIndex = r.rowIndex
  | [], _, u, hu => by simp [assignBranch] at hu
  | r :: rest, c, u, hu => by
    simp only [assignBranch, List.mem_cons] at hu
    rcases hu with rfl | hu
    · exact ⟨r, List.mem_cons_self _ _, rfl, rfl⟩
    · obtain ⟨r', hr', h1, h2⟩ := assignBranch_mem_structure q rest _ u hu
      exact ⟨r', List.mem_cons_of_mem _ hr', h1, h2⟩

theorem scanPending_rowIndex_ge {isPartition : String → Bool}
    {sheets : List Sheet} {allSellers : List Seller} :
    ∀ r ∈ scanPending isPartition sheets allSellers, 2 ≤ r.rowIndex := by
  intro r hr
  obtain ⟨sheet, -, -, hrs⟩ := scanPending_mem.mp hr
  obtain ⟨i, row, -, -, hridx⟩ := scanSheet_structure allSellers sheet r hrs
  omega

theorem directAssignFn_locator {ov : List (String × String)}
    {r : PendingRecord} {u : Assignment} (he : directAssignFn ov r = some u) :
    u.sheetName = r.sheetName ∧ u.rowIndex = r.rowIndex := by
  unfold directAssignFn at he
  split at he
  · split at he
    · obtain ⟨a, -, he2⟩ := Option.map_eq_some'.mp he
      rw [← he2]
      exact ⟨rfl, rfl⟩
    · cases he
  · cases he

theorem passUpdates_rowIndex_ge (isPartition : String → Bool)
    (sheets : List Sheet) (analystData : List (String × List String))
    (overrideRows : List (List Cell)) (allSellers : List Seller)
    (cache : List (String × Int)) :
    ∀ u ∈ passUpdates isPartition sheets analystData overrideRows allSellers
      cache, 2 ≤ u.rowIndex := by
  intro u hu
  by_cases h1 : analystData.isEmpty
  · simp [passUpdates, h1] at hu
  by_cases h2 : (scanPending isPartition sheets allSellers).isEmpty
  · simp [passUpdates, h1, h2] at hu
  have hu2 : u ∈ directAssignments (overrideEntries overrideRows)
      (scanPending isPartition sheets allSellers) ++
      (stageB analystData cache (recordsForFairShare
        (overrideEntries overrideRows)
        (scanPending isPartition sheets allSellers))).1 := by
    simpa [passUpdates, h1, h2] using hu
  rcases List.mem_append.mp hu2 with hd | hs
  · obtain ⟨r, hr, he⟩ := List.mem_filterMap.mp hd
    have hge := scanPending_rowIndex_ge r hr
    have hloc := directAssignFn_locator he
    rw [hloc.2]
    exact hge
  · rw [(stageB_branch_spec _ _ _).1] at hs
    obtain ⟨l, hlm, hin⟩ := List.mem_flatten.mp hs
    obtain ⟨b, hbm, he⟩ := List.mem_map.mp hlm
    subst he
    unfold branchAssignments at hin
    split at hin
    · cases hin
    · obtain ⟨r, hr, -, h2⟩ := assignBranch_mem_structure _ _ _ u hin
      have h3 := List.mem_filter.mp hr
      have h4 := List.mem_filter.mp h3.1
      rw [h2]
      exact scanPending_rowIndex_ge r h4.1

theorem groupedUpdates_subset {ups : List Assignment} {u : Assignment}
    (h : u ∈ groupedUpdates ups) : u ∈ ups := by
  unfold groupedUpdates at h
  obtain ⟨l, hlm, hin⟩ := List.mem_flatten.mp h
  obtain ⟨name, -, he⟩ := List.mem_map.mp hlm
  subst he
  exact (List.mem_filter.mp hin).1

end Conciliapp

namespace Conciliapp

/-- C10: the pass's write-back mutates only the `AnalistaAsignado` cells of
the rows it assigns — sheet names and per-sheet row counts are unchanged (no
rows added or deleted), and reading any cell at another column, or at a
locator no update targets, yields the same value as before the pass. -/
theorem pass_write_back_frame
    (isPartition : String → Bool) (sheets : List Sheet)
    (analystData : List (String × List String)) (overrideRows : List (List Cell))
    (allSellers : List Seller) (cache : List (String × Int)) :
    ((assignPendingRecords isPartition sheets analystData overrideRows
        allSellers cache).sheets.map Sheet.name = sheets.map Sheet.name)
    ∧ ((assignPendingRecords isPartition sheets analystData overrideRows
        allSellers cache).sheets.map (fun s => s.rows.length) =
        sheets.map (fun s => s.rows.length))
    ∧ (∀ name r c', 2 ≤ r →
        (c' ≠ analystColIndex + 1 ∨
          ∀ u ∈ passUpdates isPartition sheets analystData overrideRows
            allSellers cache, ¬(u.sheetName = name ∧ u.rowIndex = r)) →
        readCellByName (assignPendingRecords isPartition sheets analystData
          overrideRows allSellers cache).sheets name r c' =
          readCellByName sheets name r c') := by
  have hrows : ∀ u ∈ groupedUpdates (passUpdates isPartition sheets analystData
      overrideRows allSellers cache), 2 ≤ u.rowIndex :=
    fun u hu => passUpdates_rowIndex_ge _ _ _ _ _ _ u (groupedUpdates_subset hu)
  have hf := foldl_applyAssignment_frame
    (groupedUpdates (passUpdates isPartition sheets analystData overrideRows
      allSellers cache)) sheets hrows
  refine ⟨hf.1, hf.2.1, ?_⟩
  intro name r c' hr hcond
  apply hf.2.2 name r c' hr
  rcases hcond with h | h
  · exact Or.inl h
  · exact Or.inr (fun u hu => h u (groupedUpdates_subset hu))

theorem pass_write_back_frame_witness :
    readCellByName (assignPendingRecords c1Part c1Sheets c1Analysts [] [] []).sheets
      "REG_2025_mar" 2 18 = readCellByName c1Sheets "REG_2025_mar" 2 18 :=
  (pass_write_back_frame c1Part c1Sheets c1Analysts [] [] []).2.2
    "REG_2025_mar" 2 18 (by decide) (Or.inl (by decide))

end Conciliapp
